import Mathlib

/-!
Verification of the versioned record store of the DoMake repository.

The development shallowly embeds the store-related Go code:

* `internal/data/due_date.go` — the `CustomTime` temporal value with its
  JSON text form `YYYY-MM-DD HH:MM:SS` (Go layout `2006-01-02 15:04:05`);
  Go's `time.Parse` semantics for that layout are reproduced faithfully,
  including its two leniencies (a one-or-two digit hour, and an optional
  fractional-second suffix after the seconds even though the layout has
  no fractional field).
* `internal/data/tasks.go` — `Task`, `TaskModel.Insert/Get/Update/Delete/GetAll`.
* the category model file (`Category`, `CategoryModel.*`).
* the parts of `internal/data/filters.go` and `internal/validator` that are
  not present in the source tree are modelled from the specification and
  marked as such in their doc comments.

Databases are explicit lists of rows; SQL statements are translated to
executable Lean functions on those lists.  The per-call 3-second timeout
contexts are modelled structurally: each operation carries the timeout its
Go body installs (`some 3` when the body calls `context.WithTimeout(…, 3s)`,
`none` when it issues the query without a context), and every operation
takes the backend latency as an explicit parameter; a latency larger than
the installed timeout makes the call return a backend error.
-/

namespace DoMake

/-- The single parse-error value of `due_date.go` (`ErrInvalidTimeFormat`). -/
inductive TimeErr where
  | invalidTimeFormat
deriving DecidableEq, Repr

/-- A wall-clock instant as held by Go's `time.Time` inside `CustomTime`:
calendar fields plus nanoseconds.  `MarshalJSON` renders only the fields
down to seconds. -/
structure DateTime where
  year : Nat
  month : Nat
  day : Nat
  hour : Nat
  minute : Nat
  second : Nat
  nsec : Nat := 0
deriving DecidableEq, Repr

/-- Go `time.isLeap`. -/
def isLeap (y : Nat) : Bool := y % 4 == 0 && (y % 100 != 0 || y % 400 == 0)

/-- Go `time.daysIn`: days in a month, honouring leap years. -/
def daysIn (month year : Nat) : Nat :=
  if month == 2 then (if isLeap year then 29 else 28)
  else if month == 4 || month == 6 || month == 9 || month == 11 then 30
  else 31

/-- The two-digit zero-padded decimal rendering Go's `Format` produces for
the `01`, `02`, `15`, `04`, `05` layout fields; `time.Time` keeps these
fields in range, so the width-2 rendering is total on the reachable
domain. -/
def pad2 (n : Nat) : String := ⟨[Nat.digitChar (n / 10), Nat.digitChar (n % 10)]⟩

/-- The four-digit zero-padded decimal rendering Go's `Format` produces for
the `2006` layout field (years up to 9999). -/
def pad4 (n : Nat) : String :=
  ⟨[Nat.digitChar (n / 1000), Nat.digitChar (n / 100 % 10),
    Nat.digitChar (n / 10 % 10), Nat.digitChar (n % 10)]⟩

/-- `time.Time.Format("2006-01-02 15:04:05")`: the canonical text form. -/
def timeFormat (t : DateTime) : String :=
  pad4 t.year ++ "-" ++ pad2 t.month ++ "-" ++ pad2 t.day ++ " " ++
    pad2 t.hour ++ ":" ++ pad2 t.minute ++ ":" ++ pad2 t.second

/-- `CustomTime.MarshalJSON`: format, then quote. -/
def MarshalJSON (t : DateTime) : String := "\x22" ++ timeFormat t ++ "\x22"

/-- Numeric value of a decimal digit character, `none` on a non-digit. -/
def digit? (c : Char) : Option Nat :=
  if c.isDigit then some (c.toNat - 48) else none

/-- Go `getnum` with `fixed = true`: exactly two digits. -/
def getnum2 : List Char → Option (Nat × List Char)
  | c1 :: c2 :: rest => do
      let d1 ← digit? c1
      let d2 ← digit? c2
      pure (d1 * 10 + d2, rest)
  | _ => none

/-- Go `getnum` with `fixed = false` (layout field `15`, the hour):
one digit, or two when the second character is also a digit. -/
def getnum1or2 : List Char → Option (Nat × List Char)
  | [] => none
  | c1 :: rest =>
    match digit? c1 with
    | none => none
    | some d1 =>
      match rest with
      | c2 :: rest2 =>
        match digit? c2 with
        | some d2 => some (d1 * 10 + d2, rest2)
        | none => some (d1, rest)
      | [] => some (d1, [])

/-- Go `stdLongYear`: exactly four digits. -/
def getYear : List Char → Option (Nat × List Char)
  | c1 :: c2 :: c3 :: c4 :: rest => do
      let d1 ← digit? c1
      let d2 ← digit? c2
      let d3 ← digit? c3
      let d4 ← digit? c4
      pure (((d1 * 10 + d2) * 10 + d3) * 10 + d4, rest)
  | _ => none

/-- Match one literal layout character. -/
def lit (c : Char) : List Char → Option (List Char)
  | c' :: rest => if c' = c then some rest else none
  | [] => none

/-- Consume a maximal run of digits. -/
def fracDigits : List Char → (List Nat × List Char)
  | [] => ([], [])
  | c :: rest =>
    match digit? c with
    | some d => let (ds, r) := fracDigits rest; (d :: ds, r)
    | none => ([], c :: rest)

/-- Go `parseNanoseconds`: the first nine fraction digits scaled to
nanoseconds (further digits are consumed but ignored). -/
def nsecOfDigits (ds : List Nat) : Nat :=
  let ds9 := ds.take 9
  (ds9.foldl (fun a d => a * 10 + d) 0) * 10 ^ (9 - ds9.length)

/-- The special case in Go's `Parse` after the seconds field: a comma or
period followed by at least one digit is consumed as a fractional second
even though the layout has no fractional field; otherwise nothing is
consumed. -/
def parseFrac : List Char → Nat × List Char
  | c1 :: c2 :: rest =>
    if (c1 = '.' ∨ c1 = ',') ∧ c2.isDigit then
      let (ds, r) := fracDigits (c2 :: rest)
      (nsecOfDigits ds, r)
    else (0, c1 :: c2 :: rest)
  | l => (0, l)

/-- The six numeric fields of the layout plus the unconsumed tail. -/
structure ParsedFields where
  y : Nat
  mo : Nat
  d : Nat
  h : Nat
  mi : Nat
  se : Nat
  rest : List Char
deriving DecidableEq, Repr

/-- The field-shape part of `time.Parse("2006-01-02 15:04:05", …)`:
four-digit year, literal separators, two-digit month/day/minute/second,
one-or-two-digit hour. -/
def parseFields (l0 : List Char) : Option ParsedFields :=
  match getYear l0 with
  | none => none
  | some (y, l1) =>
  match lit '-' l1 with
  | none => none
  | some l2 =>
  match getnum2 l2 with
  | none => none
  | some (mo, l3) =>
  match lit '-' l3 with
  | none => none
  | some l4 =>
  match getnum2 l4 with
  | none => none
  | some (d, l5) =>
  match lit ' ' l5 with
  | none => none
  | some l6 =>
  match getnum1or2 l6 with
  | none => none
  | some (h, l7) =>
  match lit ':' l7 with
  | none => none
  | some l8 =>
  match getnum2 l8 with
  | none => none
  | some (mi, l9) =>
  match lit ':' l9 with
  | none => none
  | some l10 =>
  match getnum2 l10 with
  | none => none
  | some (se, l11) => some ⟨y, mo, d, h, mi, se, l11⟩

/-- `time.Parse("2006-01-02 15:04:05", s)`, with all of Go's checks:
field shapes, literal separators, the optional fractional-second suffix,
no trailing text, and the range checks on month, day (against the month
length), hour, minute and second. -/
def timeParse? (s : String) : Option DateTime :=
  match parseFields s.toList with
  | none => none
  | some f =>
    let (ns, l12) := parseFrac f.rest
    if l12.isEmpty ∧ 1 ≤ f.mo ∧ f.mo ≤ 12 ∧ f.h < 24 ∧ f.mi < 60 ∧ f.se < 60
        ∧ 1 ≤ f.d ∧ f.d ≤ daysIn f.mo f.y then
      some ⟨f.y, f.mo, f.d, f.h, f.mi, f.se, ns⟩
    else none

/-- Characters that `strconv.Quote` passes through verbatim and
`strconv.Unquote` reads back without escape processing. -/
def jsonPlain (c : Char) : Bool := !(c == '\x22' || c == '\\' || c == '\n')

/-- `strconv.Unquote`, restricted to escape-free content (the only kind the
store ever produces or that the theorems below feed it): surrounding
double quotes, and no quote, backslash or newline inside. -/
def unquote? (s : String) : Option String :=
  let l := s.toList
  if 2 ≤ l.length ∧ l.head? = some '\x22' ∧ l.getLast? = some '\x22'
      ∧ (l.drop 1).dropLast.all jsonPlain then
    some (String.mk ((l.drop 1).dropLast))
  else none

/-- `CustomTime.UnmarshalJSON`: unquote, then parse the layout; every
failure is reported as `ErrInvalidTimeFormat`. -/
def UnmarshalJSON (s : String) : Except TimeErr DateTime :=
  match unquote? s with
  | none => .error .invalidTimeFormat
  | some inner =>
    match timeParse? inner with
    | none => .error .invalidTimeFormat
    | some t => .ok t

/-- A valid second-precision instant, in the rendering range of the
four-digit year layout. -/
def ValidDateTime (t : DateTime) : Prop :=
  t.year ≤ 9999 ∧ 1 ≤ t.month ∧ t.month ≤ 12 ∧
    1 ≤ t.day ∧ t.day ≤ daysIn t.month t.year ∧
    t.hour ≤ 23 ∧ t.minute ≤ 59 ∧ t.second ≤ 59 ∧ t.nsec = 0

instance (t : DateTime) : Decidable (ValidDateTime t) := by
  unfold ValidDateTime; infer_instance

/-! ### Parsing / formatting lemmas for the temporal value -/

theorem digit?_digitChar : ∀ d < 10, digit? (Nat.digitChar d) = some d := by decide

theorem digitChar_ofNat : ∀ d < 10, Nat.digitChar d = Char.ofNat (48 + d) := by decide

theorem digit?_eq_some {c : Char} {d : Nat} (h : digit? c = some d) :
    d < 10 ∧ c = Nat.digitChar d := by
  unfold digit? at h
  split at h
  case isTrue hd =>
    injection h with h
    simp only [Char.isDigit, ge_iff_le, Bool.and_eq_true, decide_eq_true_eq] at hd
    have h48 : 48 ≤ c.toNat := hd.1
    have h57 : c.toNat ≤ 57 := hd.2
    have hd10 : d < 10 := by omega
    refine ⟨hd10, ?_⟩
    have hrepr : Nat.digitChar d = Char.ofNat (48 + d) := digitChar_ofNat d hd10
    have harith : 48 + d = c.toNat := by omega
    rw [hrepr, harith, Char.ofNat_toNat]
  case isFalse => exact absurd h (by simp)

theorem getnum2_pad2 {n : Nat} (h : n < 100) (rest : List Char) :
    getnum2 ((pad2 n).toList ++ rest) = some (n, rest) := by
  have h1 : n / 10 < 10 := by omega
  have h2 : n % 10 < 10 := by omega
  simp [pad2, String.toList, getnum2, digit?_digitChar _ h1, digit?_digitChar _ h2]
  omega

theorem getnum2_inv {l rest : List Char} {n : Nat} (h : getnum2 l = some (n, rest)) :
    n < 100 ∧ l = (pad2 n).toList ++ rest := by
  match l with
  | [] => simp [getnum2] at h
  | [c] => simp [getnum2] at h
  | c1 :: c2 :: l' =>
    simp only [getnum2, Option.bind_eq_bind, Option.bind_eq_some, Option.pure_def,
      Option.some.injEq, Prod.mk.injEq] at h
    obtain ⟨d1, hd1, d2, hd2, hn, hrest⟩ := h
    obtain ⟨hd1b, hc1⟩ := digit?_eq_some hd1
    obtain ⟨hd2b, hc2⟩ := digit?_eq_some hd2
    subst hc1 hc2 hrest
    constructor
    · omega
    · have e1 : n / 10 = d1 := by omega
      have e2 : n % 10 = d2 := by omega
      simp [pad2, String.toList, e1, e2]

theorem getYear_pad4 {n : Nat} (h : n < 10000) (rest : List Char) :
    getYear ((pad4 n).toList ++ rest) = some (n, rest) := by
  have h1 : n / 1000 < 10 := by omega
  have h2 : n / 100 % 10 < 10 := by omega
  have h3 : n / 10 % 10 < 10 := by omega
  have h4 : n % 10 < 10 := by omega
  simp [pad4, String.toList, getYear, digit?_digitChar _ h1, digit?_digitChar _ h2,
    digit?_digitChar _ h3, digit?_digitChar _ h4]
  omega

theorem getYear_inv {l rest : List Char} {n : Nat} (h : getYear l = some (n, rest)) :
    n < 10000 ∧ l = (pad4 n).toList ++ rest := by
  match l with
  | [] => simp [getYear] at h
  | [c] => simp [getYear] at h
  | [c, c'] => simp [getYear] at h
  | [c, c', c''] => simp [getYear] at h
  | c1 :: c2 :: c3 :: c4 :: l' =>
    simp only [getYear, Option.bind_eq_bind, Option.bind_eq_some, Option.pure_def,
      Option.some.injEq, Prod.mk.injEq] at h
    obtain ⟨d1, hd1, d2, hd2, d3, hd3, d4, hd4, hn, hrest⟩ := h
    obtain ⟨hd1b, hc1⟩ := digit?_eq_some hd1
    obtain ⟨hd2b, hc2⟩ := digit?_eq_some hd2
    obtain ⟨hd3b, hc3⟩ := digit?_eq_some hd3
    obtain ⟨hd4b, hc4⟩ := digit?_eq_some hd4
    subst hc1 hc2 hc3 hc4 hrest
    constructor
    · omega
    · have e1 : n / 1000 = d1 := by omega
      have e2 : n / 100 % 10 = d2 := by omega
      have e3 : n / 10 % 10 = d3 := by omega
      have e4 : n % 10 = d4 := by omega
      simp [pad4, String.toList, e1, e2, e3, e4]

theorem getnum1or2_pad2_colon {n : Nat} (h : n < 100) (rest : List Char) :
    getnum1or2 ((pad2 n).toList ++ ':' :: rest) = some (n, ':' :: rest) := by
  have h1 : n / 10 < 10 := by omega
  have h2 : n % 10 < 10 := by omega
  simp [pad2, String.toList, getnum1or2, digit?_digitChar _ h1, digit?_digitChar _ h2]
  omega

theorem getnum1or2_inv {l rest : List Char} {n : Nat} (h : getnum1or2 l = some (n, rest)) :
    (n < 100 ∧ l = (pad2 n).toList ++ rest) ∨ (n < 10 ∧ l = Nat.digitChar n :: rest) := by
  match l with
  | [] => simp [getnum1or2] at h
  | [c1] =>
    simp only [getnum1or2] at h
    cases hd1 : digit? c1 with
    | none => rw [hd1] at h; exact absurd h (by simp)
    | some d1 =>
      rw [hd1] at h
      simp only [Option.some.injEq, Prod.mk.injEq] at h
      obtain ⟨hn, hrest⟩ := h
      obtain ⟨hd1b, hc1⟩ := digit?_eq_some hd1
      subst hc1 hn
      right
      exact ⟨hd1b, by rw [← hrest]⟩
  | c1 :: c2 :: l' =>
    simp only [getnum1or2] at h
    cases hd1 : digit? c1 with
    | none => rw [hd1] at h; exact absurd h (by simp)
    | some d1 =>
      rw [hd1] at h
      obtain ⟨hd1b, hc1⟩ := digit?_eq_some hd1
      cases hd2 : digit? c2 with
      | none =>
        rw [hd2] at h
        simp only [Option.some.injEq, Prod.mk.injEq] at h
        obtain ⟨hn, hrest⟩ := h
        subst hc1 hn
        right
        exact ⟨hd1b, by rw [← hrest]⟩
      | some d2 =>
        rw [hd2] at h
        simp only [Option.some.injEq, Prod.mk.injEq] at h
        obtain ⟨hn, hrest⟩ := h
        obtain ⟨hd2b, hc2⟩ := digit?_eq_some hd2
        subst hc1 hc2 hrest
        left
        constructor
        · omega
        · have e1 : n / 10 = d1 := by omega
          have e2 : n % 10 = d2 := by omega
          simp [pad2, String.toList, e1, e2]

theorem lit_cons (c : Char) (rest : List Char) : lit c (c :: rest) = some rest := by
  simp [lit]

theorem lit_inv {c : Char} {l rest : List Char} (h : lit c l = some rest) :
    l = c :: rest := by
  match l with
  | [] => simp [lit] at h
  | c' :: l' =>
    simp only [lit] at h
    split at h
    · simp only [Option.some.injEq] at h
      subst h
      simp_all
    · exact absurd h (by simp)

theorem fracDigits_inv : ∀ {l : List Char} {ds : List Nat} {r : List Char},
    fracDigits l = (ds, r) → l = ds.map Nat.digitChar ++ r ∧ ∀ d ∈ ds, d < 10 := by
  intro l
  induction l with
  | nil =>
    intro ds r h
    simp only [fracDigits, Prod.mk.injEq] at h
    obtain ⟨h1, h2⟩ := h
    subst h1 h2
    simp
  | cons c l' ih =>
    intro ds r h
    simp only [fracDigits] at h
    cases hd : digit? c with
    | none =>
      rw [hd] at h
      simp only [Prod.mk.injEq] at h
      obtain ⟨h1, h2⟩ := h
      subst h1 h2
      simp
    | some d =>
      rw [hd] at h
      simp only [Prod.mk.injEq] at h
      obtain ⟨hd10, hc⟩ := digit?_eq_some hd
      cases hds : fracDigits l' with
      | mk ds' r' =>
        rw [hds] at h
        simp only [Prod.mk.injEq] at h
        obtain ⟨h1, h2⟩ := h
        subst h1 h2
        obtain ⟨hl', hall⟩ := ih hds
        subst hc
        constructor
        · simp [hl']
        · intro x hx
          rcases List.mem_cons.mp hx with h | h
          · omega
          · exact hall x h

theorem parseFrac_nil : parseFrac [] = (0, []) := rfl

theorem parseFrac_inv {l : List Char} {ns : Nat} (h : parseFrac l = (ns, [])) :
    (l = [] ∧ ns = 0) ∨
      (∃ c0 ds, (c0 = '.' ∨ c0 = ',') ∧ ds ≠ [] ∧ (∀ d ∈ ds, d < 10) ∧
        l = c0 :: ds.map Nat.digitChar ∧ ns = nsecOfDigits ds) := by
  match l with
  | [] =>
    simp only [parseFrac, Prod.mk.injEq] at h
    exact Or.inl ⟨rfl, h.1.symm⟩
  | [c] =>
    simp only [parseFrac, Prod.mk.injEq] at h
    exact absurd h.2 (by simp)
  | c1 :: c2 :: l' =>
    simp only [parseFrac] at h
    split at h
    case isTrue hcond =>
      cases hds : fracDigits (c2 :: l') with
      | mk ds r =>
        rw [hds] at h
        simp only [Prod.mk.injEq] at h
        obtain ⟨hns, hr⟩ := h
        obtain ⟨hshape, hall⟩ := fracDigits_inv hds
        subst hr
        refine Or.inr ⟨c1, ds, hcond.1, ?_, hall, ?_, hns.symm⟩
        · intro hempty
          subst hempty
          simp at hshape
        · simp only [List.append_nil] at hshape
          rw [hshape]
    case isFalse =>
      simp only [Prod.mk.injEq] at h
      exact absurd h.2 (by simp)

/-- Shape of `parseFields` output on well-formed input (used for the
round trip). -/
theorem parseFields_format {y mo d h mi se : Nat}
    (hy : y < 10000) (hmo : mo < 100) (hd : d < 100) (hh : h < 100)
    (hmi : mi < 100) (hse : se < 100) (tail : List Char) :
    parseFields ((pad4 y).toList ++ '-' :: (pad2 mo).toList ++ '-' :: (pad2 d).toList
        ++ ' ' :: (pad2 h).toList ++ ':' :: (pad2 mi).toList ++ ':' :: (pad2 se).toList
        ++ tail) =
      some ⟨y, mo, d, h, mi, se, tail⟩ := by
  have e1 := getYear_pad4 hy ('-' :: (pad2 mo).toList ++ '-' :: (pad2 d).toList
    ++ ' ' :: (pad2 h).toList ++ ':' :: (pad2 mi).toList ++ ':' :: (pad2 se).toList ++ tail)
  have e2 := getnum2_pad2 hmo ('-' :: (pad2 d).toList
    ++ ' ' :: (pad2 h).toList ++ ':' :: (pad2 mi).toList ++ ':' :: (pad2 se).toList ++ tail)
  have e3 := getnum2_pad2 hd (' ' :: (pad2 h).toList
    ++ ':' :: (pad2 mi).toList ++ ':' :: (pad2 se).toList ++ tail)
  have e4 := getnum1or2_pad2_colon hh ((pad2 mi).toList ++ ':' :: (pad2 se).toList ++ tail)
  have e5 := getnum2_pad2 hmi (':' :: (pad2 se).toList ++ tail)
  have e6 := getnum2_pad2 hse tail
  have f1 := lit_cons '-' ((pad2 mo).toList ++ '-' :: (pad2 d).toList
    ++ ' ' :: (pad2 h).toList ++ ':' :: (pad2 mi).toList ++ ':' :: (pad2 se).toList ++ tail)
  have f2 := lit_cons '-' ((pad2 d).toList
    ++ ' ' :: (pad2 h).toList ++ ':' :: (pad2 mi).toList ++ ':' :: (pad2 se).toList ++ tail)
  have f3 := lit_cons ' ' ((pad2 h).toList
    ++ ':' :: (pad2 mi).toList ++ ':' :: (pad2 se).toList ++ tail)
  have f4 := lit_cons ':' ((pad2 mi).toList ++ ':' :: (pad2 se).toList ++ tail)
  have f5 := lit_cons ':' ((pad2 se).toList ++ tail)
  simp only [parseFields, List.append_assoc, List.cons_append, List.nil_append] at *
  simp only [e1, f1, e2, f2, e3, f3, e4, f4, e5, f5, e6]

/-- Inversion for `parseFields`: a successful parse pins the input text to
the canonical rendering of the parsed fields, except that the hour may
have been written with one digit. -/
theorem parseFields_inv {l : List Char} {f : ParsedFields} (h : parseFields l = some f) :
    f.y < 10000 ∧ f.mo < 100 ∧ f.d < 100 ∧ f.mi < 100 ∧ f.se < 100 ∧
    ∃ hourChars,
      ((f.h < 100 ∧ hourChars = (pad2 f.h).toList) ∨ (f.h < 10 ∧ hourChars = [Nat.digitChar f.h])) ∧
      l = (pad4 f.y).toList ++ '-' :: (pad2 f.mo).toList ++ '-' :: (pad2 f.d).toList
        ++ ' ' :: hourChars ++ ':' :: (pad2 f.mi).toList ++ ':' :: (pad2 f.se).toList
        ++ f.rest := by
  unfold parseFields at h
  split at h
  · exact absurd h (by simp)
  next y l1 hYear =>
    split at h
    · exact absurd h (by simp)
    next l2 hLit1 =>
      split at h
      · exact absurd h (by simp)
      next mo l3 hMo =>
        split at h
        · exact absurd h (by simp)
        next l4 hLit2 =>
          split at h
          · exact absurd h (by simp)
          next d l5 hD =>
            split at h
            · exact absurd h (by simp)
            next l6 hLit3 =>
              split at h
              · exact absurd h (by simp)
              next hh l7 hH =>
                split at h
                · exact absurd h (by simp)
                next l8 hLit4 =>
                  split at h
                  · exact absurd h (by simp)
                  next mi l9 hMi =>
                    split at h
                    · exact absurd h (by simp)
                    next l10 hLit5 =>
                      split at h
                      · exact absurd h (by simp)
                      next se l11 hSe =>
                        injection h with h
                        subst h
                        obtain ⟨hyb, hyl⟩ := getYear_inv hYear
                        obtain ⟨hmob, hmol⟩ := getnum2_inv hMo
                        obtain ⟨hdb, hdl⟩ := getnum2_inv hD
                        obtain ⟨hmib, hmil⟩ := getnum2_inv hMi
                        obtain ⟨hseb, hsel⟩ := getnum2_inv hSe
                        have hl1 := lit_inv hLit1
                        have hl2 := lit_inv hLit2
                        have hl3 := lit_inv hLit3
                        have hl4 := lit_inv hLit4
                        have hl5 := lit_inv hLit5
                        refine ⟨hyb, hmob, hdb, hmib, hseb, ?_⟩
                        rcases getnum1or2_inv hH with ⟨hhb, hhl⟩ | ⟨hhb, hhl⟩
                        · refine ⟨(pad2 hh).toList, Or.inl ⟨hhb, rfl⟩, ?_⟩
                          subst hyl hl1 hmol hl2 hdl hl3 hhl hl4 hmil hl5 hsel
                          simp [List.append_assoc]
                        · refine ⟨[Nat.digitChar hh], Or.inr ⟨hhb, rfl⟩, ?_⟩
                          subst hyl hl1 hmol hl2 hdl hl3 hhl hl4 hmil hl5 hsel
                          simp [List.append_assoc]

theorem timeFormat_toList (t : DateTime) :
    (timeFormat t).toList = (pad4 t.year).toList ++ '-' :: (pad2 t.month).toList
      ++ '-' :: (pad2 t.day).toList ++ ' ' :: (pad2 t.hour).toList
      ++ ':' :: (pad2 t.minute).toList ++ ':' :: (pad2 t.second).toList := rfl

/-- Round trip at the text layer: formatting a valid instant and parsing
it back is the identity. -/
theorem timeParse?_timeFormat {t : DateTime} (h : ValidDateTime t) :
    timeParse? (timeFormat t) = some t := by
  obtain ⟨y, mo, d, hh, mi, se, ns⟩ := t
  obtain ⟨hy, hmo1, hmo2, hd1, hd2, hhb, hmib, hseb, hns⟩ := h
  simp only at hy hmo1 hmo2 hd1 hd2 hhb hmib hseb hns
  subst hns
  have hdlt : d < 100 := by
    have : daysIn mo y ≤ 31 := by
      unfold daysIn
      split <;> try split <;> omega
    omega
  have hp := @parseFields_format y mo d hh mi se (by omega) (by omega) hdlt
    (by omega) (by omega) (by omega) []
  simp only [List.append_nil] at hp
  unfold timeParse?
  simp only [timeFormat_toList]
  rw [hp]
  simp only [parseFrac_nil]
  rw [if_pos]
  exact ⟨rfl, by omega, by omega, by omega, by omega, by omega, by omega, hd2⟩

/-- The texts accepted by the parser: the canonical rendering of `t`,
except that the hour may be written with a single digit when it is below
10, and a fractional-second suffix (a period or comma followed by digits)
may follow the seconds. -/
def ToleratedText (t : DateTime) (s : String) : Prop :=
  ∃ hourChars fracChars,
    ((hourChars = (pad2 t.hour).toList) ∨ (t.hour < 10 ∧ hourChars = [Nat.digitChar t.hour])) ∧
    ((fracChars = ([] : List Char) ∧ t.nsec = 0) ∨
      ∃ c0 ds, (c0 = '.' ∨ c0 = ',') ∧ ds ≠ [] ∧ (∀ d ∈ ds, d < 10) ∧
        fracChars = c0 :: ds.map Nat.digitChar ∧ t.nsec = nsecOfDigits ds) ∧
    s.toList = (pad4 t.year).toList ++ '-' :: (pad2 t.month).toList
      ++ '-' :: (pad2 t.day).toList ++ ' ' :: hourChars
      ++ ':' :: (pad2 t.minute).toList ++ ':' :: (pad2 t.second).toList ++ fracChars

/-- Soundness of the parser: whenever it succeeds, the fields are in
range and the input had one of the tolerated shapes. -/
theorem timeParse?_sound {s : String} {t : DateTime} (h : timeParse? s = some t) :
    (1 ≤ t.month ∧ t.month ≤ 12 ∧ 1 ≤ t.day ∧ t.day ≤ daysIn t.month t.year ∧
      t.hour < 24 ∧ t.minute < 60 ∧ t.second < 60 ∧ t.year < 10000) ∧
    ToleratedText t s := by
  unfold timeParse? at h
  split at h
  · exact absurd h (by simp)
  next f hpf =>
    cases hfrac : parseFrac f.rest with
    | mk ns l12 =>
      rw [hfrac] at h
      simp only at h
      split at h
      case isTrue hcond =>
        injection h with h
        obtain ⟨hempty, hmo1, hmo2, hhb, hmib, hseb, hd1, hd2⟩ := hcond
        have hl12 : l12 = [] := List.isEmpty_iff.mp hempty
        subst hl12
        obtain ⟨hyb, hmob, hdb, hmib2, hseb2, hourChars, hhour, hshape⟩ := parseFields_inv hpf
        subst h
        refine ⟨⟨hmo1, hmo2, hd1, hd2, hhb, hmib, hseb, hyb⟩, ?_⟩
        rcases parseFrac_inv hfrac with ⟨hrest, hns⟩ | ⟨c0, ds, hc0, hne, hall, hrest, hns⟩
        · refine ⟨hourChars, [], ?_, Or.inl ⟨rfl, hns⟩, ?_⟩
          · rcases hhour with ⟨_, hhc⟩ | ⟨hlt, hhc⟩
            · exact Or.inl hhc
            · exact Or.inr ⟨hlt, hhc⟩
          · rw [hshape, hrest]
        · refine ⟨hourChars, c0 :: ds.map Nat.digitChar, ?_, Or.inr ⟨c0, ds, hc0, hne, hall, rfl, hns⟩, ?_⟩
          · rcases hhour with ⟨_, hhc⟩ | ⟨hlt, hhc⟩
            · exact Or.inl hhc
            · exact Or.inr ⟨hlt, hhc⟩
          · rw [hshape, hrest]
      case isFalse => exact absurd h (by simp)

theorem jsonPlain_digitChar : ∀ d < 10, jsonPlain (Nat.digitChar d) = true := by decide

theorem timeFormat_all_jsonPlain {t : DateTime} (h : ValidDateTime t) :
    (timeFormat t).toList.all jsonPlain = true := by
  obtain ⟨y, mo, d, hh, mi, se, ns⟩ := t
  obtain ⟨hy, hmo1, hmo2, hd1, hd2, hhb, hmib, hseb, hns⟩ := h
  simp only at hy hmo1 hmo2 hd1 hd2 hhb hmib hseb hns
  have hdlt : d < 100 := by
    have : daysIn mo y ≤ 31 := by
      unfold daysIn
      split <;> try split <;> omega
    omega
  show ((pad4 y).toList ++ '-' :: (pad2 mo).toList ++ '-' :: (pad2 d).toList
      ++ ' ' :: (pad2 hh).toList ++ ':' :: (pad2 mi).toList
      ++ ':' :: (pad2 se).toList).all jsonPlain = true
  simp +decide only [pad2, pad4, String.toList, List.all_append,
    List.all_cons, Bool.and_eq_true,
    jsonPlain_digitChar _ (show y / 1000 < 10 by omega),
    jsonPlain_digitChar _ (show y / 100 % 10 < 10 by omega),
    jsonPlain_digitChar _ (show y / 10 % 10 < 10 by omega),
    jsonPlain_digitChar _ (show y % 10 < 10 by omega),
    jsonPlain_digitChar _ (show mo / 10 < 10 by omega),
    jsonPlain_digitChar _ (show mo % 10 < 10 by omega),
    jsonPlain_digitChar _ (show d / 10 < 10 by omega),
    jsonPlain_digitChar _ (show d % 10 < 10 by omega),
    jsonPlain_digitChar _ (show hh / 10 < 10 by omega),
    jsonPlain_digitChar _ (show hh % 10 < 10 by omega),
    jsonPlain_digitChar _ (show mi / 10 < 10 by omega),
    jsonPlain_digitChar _ (show mi % 10 < 10 by omega),
    jsonPlain_digitChar _ (show se / 10 < 10 by omega),
    jsonPlain_digitChar _ (show se % 10 < 10 by omega)]

theorem marshal_toList (t : DateTime) :
    (MarshalJSON t).toList = '\x22' :: (timeFormat t).toList ++ ['\x22'] := by
  have h1 : ("\x22" : String).data = ['\x22'] := rfl
  simp [MarshalJSON, String.toList, String.data_append, h1]

theorem unquote?_marshal {t : DateTime} (h : ValidDateTime t) :
    unquote? (MarshalJSON t) = some (timeFormat t) := by
  have hall := timeFormat_all_jsonPlain h
  unfold unquote?
  rw [marshal_toList]
  rw [if_pos]
  · have hdrop : ('\x22' :: (timeFormat t).toList ++ ['\x22']).drop 1
        = (timeFormat t).toList ++ ['\x22'] := by
      simp
    rw [hdrop, List.dropLast_concat]
    rfl
  · refine ⟨by simp, by simp, ?_, ?_⟩
    · rw [show ('\x22' :: (timeFormat t).toList ++ ['\x22'])
          = ('\x22' :: (timeFormat t).toList) ++ ['\x22'] from by simp]
      exact List.getLast?_concat _
    · have hdrop : ('\x22' :: (timeFormat t).toList ++ ['\x22']).drop 1
          = (timeFormat t).toList ++ ['\x22'] := by
        simp
      rw [hdrop, List.dropLast_concat]
      exact hall

/-- JSON-level round trip for valid instants. -/
theorem UnmarshalJSON_MarshalJSON {t : DateTime} (h : ValidDateTime t) :
    UnmarshalJSON (MarshalJSON t) = .ok t := by
  unfold UnmarshalJSON
  simp only [unquote?_marshal h, timeParse?_timeFormat h]

/-- C5 counterexample: the text `2024-01-02 3:04:05` (single-digit hour)
is not the canonical rendering of any valid instant, yet decoding its
quoted form succeeds instead of failing with `InvalidTimeFormat`. -/
theorem time_decode_accepts_single_digit_hour :
    UnmarshalJSON "\x222024-01-02 3:04:05\x22"
        = .ok ⟨2024, 1, 2, 3, 4, 5, 0⟩ ∧
      ¬ ∃ t, ValidDateTime t ∧ "2024-01-02 3:04:05" = timeFormat t := by
  constructor
  · rfl
  · rintro ⟨t, hval, heq⟩
    have h1 := timeParse?_timeFormat hval
    rw [← heq] at h1
    have h2 : timeParse? "2024-01-02 3:04:05" = some ⟨2024, 1, 2, 3, 4, 5, 0⟩ := rfl
    rw [h2] at h1
    injection h1 with h1
    rw [← h1] at heq
    exact absurd heq (by decide)

/-- C5 (amended): for every valid instant `t`, `decode (encode t) = t`;
and decoding succeeds only on texts of the canonical layout up to two
tolerated deviations — the hour may be written with one digit, and a
fractional-second suffix (a period or comma followed by digits) may
follow the seconds — with every field range-checked; all other texts
fail with `InvalidTimeFormat` (the only error the decoder returns). -/
theorem time_decode_encode_amended :
    (∀ t : DateTime, ValidDateTime t → UnmarshalJSON (MarshalJSON t) = .ok t) ∧
    (∀ (s : String) (t : DateTime), UnmarshalJSON s = .ok t →
      ∃ inner, unquote? s = some inner ∧
        (1 ≤ t.month ∧ t.month ≤ 12 ∧ 1 ≤ t.day ∧ t.day ≤ daysIn t.month t.year ∧
          t.hour < 24 ∧ t.minute < 60 ∧ t.second < 60 ∧ t.year < 10000) ∧
        ToleratedText t inner) := by
  constructor
  · exact fun t h => UnmarshalJSON_MarshalJSON h
  · intro s t h
    unfold UnmarshalJSON at h
    cases hu : unquote? s with
    | none => rw [hu] at h; exact absurd h (by simp)
    | some inner =>
      simp only [hu] at h
      cases hp : timeParse? inner with
      | none => simp only [hp] at h; exact absurd h (by simp)
      | some t' =>
        simp only [hp, Except.ok.injEq] at h
        subst h
        exact ⟨inner, rfl, timeParse?_sound hp⟩

/-- Witness for the amended C5 theorem at a concrete instant. -/
theorem time_decode_encode_amended_witness :
    UnmarshalJSON (MarshalJSON ⟨2024, 1, 2, 3, 4, 5, 0⟩)
      = .ok ⟨2024, 1, 2, 3, 4, 5, 0⟩ :=
  time_decode_encode_amended.1 _ (by decide)

/-! ## The record store

Databases are explicit lists of rows.  Backend behaviour needed by the
claims — `bigserial` sequences, `DEFAULT NOW()` / `DEFAULT 1`, conditional
`UPDATE … RETURNING`, `RowsAffected`, the `count(*) OVER()` window
aggregate, `ORDER BY`/`LIMIT`/`OFFSET`, and statement timeouts — is
translated from the SQL text of each Go method. -/

/-- Error taxonomy of `internal/data`: `ErrRecordNotFound`,
`ErrEditConflict`, and any backend-level failure (timeout, constraint
violation, scan error) surfaced verbatim. -/
inductive StoreErr where
  | notFound
  | editConflict
  | backend
deriving DecidableEq, Repr

/-- The ten query-issuing store operations. -/
inductive StoreOp where
  | taskInsert
  | taskGet
  | taskUpdate
  | taskDelete
  | taskGetAll
  | catInsert
  | catGet
  | catUpdate
  | catDelete
  | catGetAll
deriving DecidableEq, Repr

/-- The per-call timeout each Go method installs: `some 3` when the body
wraps the query in `context.WithTimeout(context.Background(), 3*time.Second)`;
`none` when it issues the query with no context at all — which is what both
`TaskModel.Insert` and `CategoryModel.Insert` do (`m.DB.QueryRow`). -/
def opTimeout : StoreOp → Option Nat
  | .taskInsert => none
  | .catInsert => none
  | _ => some 3

/-- Whether a backend that takes `latency` time units to answer trips the
operation's timeout.  An operation with no installed timeout never times
out (it simply waits). -/
def timesOut (op : StoreOp) (latency : Nat) : Bool :=
  match opTimeout op with
  | some t => decide (t < latency)
  | none => false

/-- Go `int32` maximum; the `version` column is a PostgreSQL `integer`
and incrementing it past this raises a backend error. -/
def maxInt32 : Int := 2147483647

/-- The `Task` entity struct (`internal/data/tasks.go`). -/
structure Task where
  ID : Int
  CreatedAt : DateTime
  Title : String
  Description : String
  DueDate : DateTime
  Priority : String
  Status : String
  Category : String
  UserID : Int
  Version : Int
deriving DecidableEq, Repr

/-- One row of the `tasks` table
(`migrations/000001_create_tasks_table.up.sql`). -/
structure TaskRow where
  id : Int
  created_at : DateTime
  title : String
  description : String
  due_date : DateTime
  priority : String
  status : String
  category : String
  user_id : Int
  version : Int
deriving DecidableEq, Repr

/-- The `tasks` table state: rows plus the two `bigserial` sequences
(`id` and — per the migration — `user_id`). -/
structure TasksDB where
  rows : List TaskRow
  nextId : Int
  nextUserId : Int
deriving DecidableEq, Repr

/-- Well-formed table: distinct ids, all at least 1 and below the `id`
sequence value. -/
def TasksDB.wf (db : TasksDB) : Prop :=
  db.rows.Pairwise (fun a b => a.id ≠ b.id) ∧ ∀ r ∈ db.rows, 1 ≤ r.id ∧ r.id < db.nextId

instance (db : TasksDB) : Decidable db.wf := by
  unfold TasksDB.wf; infer_instance

def TaskRow.toTask (r : TaskRow) : Task :=
  { ID := r.id, CreatedAt := r.created_at, Title := r.title,
    Description := r.description, DueDate := r.due_date,
    Priority := r.priority, Status := r.status, Category := r.category,
    UserID := r.user_id, Version := r.version }

/-- `TaskModel.Insert`: `INSERT INTO tasks (title, description, priority,
status, category, due_date) VALUES (…) RETURNING id, created_at, user_id,
version`.  `user_id` is *not* in the column list — the migration declares
it `bigserial`, so the backend assigns it from its own sequence, and the
scan writes the returned `id`, `created_at`, `user_id` and `version` back
into the caller's struct.  The query is issued via `QueryRow` with no
timeout context.  Result: backend queries issued, new table state, and the
written-back entity (or error). -/
def TaskModel.Insert (now : DateTime) (latency : Nat) (db : TasksDB) (task : Task) :
    Nat × TasksDB × Except StoreErr Task :=
  if timesOut .taskInsert latency then (1, db, .error .backend)
  else
    let row : TaskRow :=
      { id := db.nextId, created_at := now, title := task.Title,
        description := task.Description, due_date := task.DueDate,
        priority := task.Priority, status := task.Status,
        category := task.Category, user_id := db.nextUserId, version := 1 }
    (1, ⟨db.rows ++ [row], db.nextId + 1, db.nextUserId + 1⟩,
      .ok { task with ID := db.nextId, CreatedAt := now,
                      UserID := db.nextUserId, Version := 1 })

/-- `TaskModel.Get`: `id < 1` short-circuits to `ErrRecordNotFound` with no
backend query; otherwise a single `SELECT … WHERE id = $1` under a
3-second timeout; `sql.ErrNoRows` becomes `ErrRecordNotFound`. -/
def TaskModel.Get (latency : Nat) (db : TasksDB) (id : Int) :
    Nat × Except StoreErr Task :=
  if id < 1 then (0, .error .notFound)
  else if timesOut .taskGet latency then (1, .error .backend)
  else
    match db.rows.find? (fun r => r.id == id) with
    | none => (1, .error .notFound)
    | some r => (1, .ok r.toTask)

/-- `TaskModel.Update`: a single conditional
`UPDATE tasks SET …, version = version + 1 WHERE id = $8 AND version = $9
RETURNING version` under a 3-second timeout.  Zero matched rows surface as
`sql.ErrNoRows` → `ErrEditConflict`; on success the scan writes the
returned (incremented) version into the caller's struct, which is
otherwise untouched.  Incrementing past the `integer` range is a backend
error. -/
def TaskModel.Update (latency : Nat) (db : TasksDB) (task : Task) :
    Nat × TasksDB × Task × Except StoreErr Unit :=
  if timesOut .taskUpdate latency then (1, db, task, .error .backend)
  else
    match db.rows.find? (fun r => r.id == task.ID && r.version == task.Version) with
    | none => (1, db, task, .error .editConflict)
    | some r =>
      if maxInt32 < r.version + 1 then (1, db, task, .error .backend)
      else
        let newRows := db.rows.map fun r' =>
          if r'.id == task.ID && r'.version == task.Version then
            { r' with title := task.Title, description := task.Description,
                      priority := task.Priority, status := task.Status,
                      category := task.Category, due_date := task.DueDate,
                      user_id := task.UserID, version := r'.version + 1 }
          else r'
        (1, { db with rows := newRows }, { task with Version := r.version + 1 }, .ok ())

/-- `TaskModel.Delete`: `id < 1` short-circuits to `ErrRecordNotFound`
with no backend query; otherwise `DELETE FROM tasks WHERE id = $1` under a
3-second timeout, and `RowsAffected() == 0` also reports
`ErrRecordNotFound`.  The `version` column plays no role. -/
def TaskModel.Delete (latency : Nat) (db : TasksDB) (id : Int) :
    Nat × TasksDB × Except StoreErr Unit :=
  if id < 1 then (0, db, .error .notFound)
  else if timesOut .taskDelete latency then (1, db, .error .backend)
  else
    let affected := (db.rows.filter fun r => r.id == id).length
    if affected == 0 then (1, db, .error .notFound)
    else (1, { db with rows := db.rows.filter fun r => !(r.id == id) }, .ok ())

/-! ### Pagination, sort policy and validation

`internal/data/filters.go` and the `internal/validator` package are not
present in the source tree (only their call sites are), so the
definitions in this section are modelled from the specification, §4.2 and
§4.3. -/

/-- Modelled from the spec: the validation engine of `internal/validator`
(missing from the source tree).  `Check` records `(field, message)` only
when the condition is false and the field has no message yet; `Valid` iff
nothing was recorded. -/
structure Validator where
  Errors : List (String × String)
deriving DecidableEq, Repr

def Validator.AddError (v : Validator) (key message : String) : Validator :=
  if v.Errors.any (fun p => p.1 == key) then v else ⟨v.Errors ++ [(key, message)]⟩

def Validator.Check (v : Validator) (ok : Bool) (key message : String) : Validator :=
  if ok then v else v.AddError key message

def Validator.Valid (v : Validator) : Bool := v.Errors.isEmpty

/-- Modelled from the spec: the `Filters` struct of
`internal/data/filters.go` (missing from the source tree), §4.3. -/
structure Filters where
  Page : Int
  PageSize : Int
  sort : String
  SortSafelist : List String
deriving DecidableEq, Repr

/-- `strings.HasPrefix(s, "-")`. -/
def hasDash (s : String) : Bool :=
  match s.toList with
  | '-' :: _ => true
  | _ => false

/-- `strings.TrimPrefix(s, "-")`: strips one leading `-` when present. -/
def trimDash (s : String) : String :=
  match s.toList with
  | '-' :: rest => String.mk rest
  | _ => s

/-- Modelled from the spec: `sortColumn()` strips a leading `-` from the
sort token and "must only ever return a value drawn from the safelist";
the out-of-safelist case (a panic in the original design pattern,
unreachable behind `ValidateFilters`) is `none`. -/
def Filters.sortColumn (f : Filters) : Option String :=
  if f.SortSafelist.contains f.sort then some (trimDash f.sort) else none

/-- Modelled from the spec: `sortDirection()` is `DESC` iff the sort token
starts with `-`. -/
def Filters.sortDirection (f : Filters) : String :=
  if hasDash f.sort then "DESC" else "ASC"

/-- Modelled from the spec: `limit() = pageSize`. -/
def Filters.limit (f : Filters) : Int := f.PageSize

/-- Modelled from the spec: `offset() = (page - 1) * pageSize`. -/
def Filters.offset (f : Filters) : Int := (f.Page - 1) * f.PageSize

/-- Modelled from the spec: `ValidateFilters` — page in `[1, 10_000_000]`,
pageSize in `[1, 100]`, sort token drawn from the safelist; all failures
recorded in the validator. -/
def ValidateFilters (v : Validator) (f : Filters) : Validator :=
  ((((v.Check (0 < f.Page) "page" "must be greater than zero").Check
      (f.Page ≤ 10000000) "page" "must be a maximum of 10 million").Check
      (0 < f.PageSize) "page_size" "must be greater than zero").Check
      (f.PageSize ≤ 100) "page_size" "must be a maximum of 100").Check
      (f.SortSafelist.contains f.sort) "sort" "invalid sort value"

/-- The pagination metadata struct of `filters.go`. -/
structure Metadata where
  CurrentPage : Int
  PageSize : Int
  FirstPage : Int
  LastPage : Int
  TotalRecords : Int
deriving DecidableEq, Repr

/-- Modelled from the spec: `calculateMetadata` (missing from the source
tree) — all-zero when `totalRecords == 0`, otherwise
`lastPage = ceil(totalRecords / pageSize)` and `firstPage = 1`. -/
def calculateMetadata (totalRecords page pageSize : Int) : Metadata :=
  if totalRecords = 0 then ⟨0, 0, 0, 0, 0⟩
  else ⟨page, pageSize, 1, (totalRecords + pageSize - 1) / pageSize, totalRecords⟩

/-! ### Ordering and full-text matching used by `GetAll` -/

/-- A sortable SQL value: the `tasks`/`categories` columns are integers,
text, or timestamps. -/
inductive ColVal where
  | int (i : Int)
  | str (s : String)
  | time (t : DateTime)
deriving DecidableEq, Repr

/-- Lexicographic strict order on instants (PostgreSQL timestamp order). -/
def dtLtB (a b : DateTime) : Bool :=
  if a.year ≠ b.year then a.year < b.year
  else if a.month ≠ b.month then a.month < b.month
  else if a.day ≠ b.day then a.day < b.day
  else if a.hour ≠ b.hour then a.hour < b.hour
  else if a.minute ≠ b.minute then a.minute < b.minute
  else if a.second ≠ b.second then a.second < b.second
  else a.nsec < b.nsec

/-- Strict order on column values.  Values of one column always share one
constructor; the cross-constructor cases are an arbitrary fixed order. -/
def colValLt : ColVal → ColVal → Bool
  | .int a, .int b => a < b
  | .str a, .str b => a < b
  | .time a, .time b => dtLtB a b
  | .int _, _ => true
  | _, .int _ => false
  | .str _, .time _ => true
  | .time _, .str _ => false

/-- `ORDER BY col dir, id ASC` as a total preorder on rows, parameterised
by the key extractor. -/
def keyedRowLe {α : Type} (key : α → ColVal) (rowId : α → Int) (desc : Bool)
    (a b : α) : Bool :=
  if colValLt (key a) (key b) then !desc
  else if colValLt (key b) (key a) then desc
  else rowId a ≤ rowId b

/-- Lowercased alphanumeric tokens of a text: the `simple` text-search
configuration of `to_tsvector`/`plainto_tsquery` (case-normalised, split
at non-alphanumeric characters, no stemming). -/
def tsTokens (s : String) : List String :=
  (((s.toList.map Char.toLower).splitOnP fun c => !c.isAlphanum).filter
    fun l => !l.isEmpty).map List.asString

/-- `to_tsvector('simple', doc) @@ plainto_tsquery('simple', q)`: every
token of the query occurs among the tokens of the document, and the query
has at least one token (an empty tsquery matches nothing). -/
def tsMatch (doc q : String) : Bool :=
  let qs := tsTokens q
  !qs.isEmpty && qs.all fun tok => (tsTokens doc).contains tok

/-- The `WHERE` clause of `TaskModel.GetAll`:
`to_tsvector('simple', title) @@ plainto_tsquery('simple', $1) OR $1 = ''`. -/
def taskMatches (title : String) (r : TaskRow) : Bool :=
  title == "" || tsMatch r.title title

/-- Columns of the `tasks` table; interpolating any other token would make
the backend reject the query. -/
def taskSortable (c : String) : Bool :=
  ["id", "created_at", "title", "description", "due_date", "priority",
    "status", "category", "user_id", "version"].contains c

def TaskRow.colVal (r : TaskRow) (c : String) : ColVal :=
  if c = "created_at" then .time r.created_at
  else if c = "title" then .str r.title
  else if c = "description" then .str r.description
  else if c = "due_date" then .time r.due_date
  else if c = "priority" then .str r.priority
  else if c = "status" then .str r.status
  else if c = "category" then .str r.category
  else if c = "user_id" then .int r.user_id
  else if c = "version" then .int r.version
  else .int r.id

/-- `TaskModel.GetAll`: one query that filters by the full-text predicate,
counts the filtered rows with `count(*) OVER()`, orders by the resolved
sort column/direction with `id ASC` as tie-break, and windows with
`LIMIT`/`OFFSET`.  The scan loop reads the window count from the returned
rows, so an empty page leaves `totalRecords` at its initial 0.  A sort
token outside the safelist panics inside `fmt.Sprintf` before any query
is issued; an interpolated non-column token is rejected by the backend. -/
def TaskModel.GetAll (latency : Nat) (db : TasksDB) (title : String) (filters : Filters) :
    Nat × Except StoreErr (List Task × Metadata) :=
  match filters.sortColumn with
  | none => (0, .error .backend)
  | some c =>
    if !(taskSortable c) then (1, .error .backend)
    else if timesOut .taskGetAll latency then (1, .error .backend)
    else
      let matching := db.rows.filter (taskMatches title)
      let desc := filters.sortDirection == "DESC"
      let sorted := matching.mergeSort (keyedRowLe (fun r => r.colVal c) (fun r => r.id) desc)
      let windowed := (sorted.drop filters.offset.toNat).take filters.limit.toNat
      let totalRecords : Int := if windowed.isEmpty then 0 else matching.length
      (1, .ok (windowed.map TaskRow.toTask,
        calculateMetadata totalRecords filters.Page filters.PageSize))

/-! ### The category model -/

/-- The `Category` entity struct. -/
structure Category where
  ID : Int
  CreatedAt : DateTime
  Name : String
  Description : String
deriving DecidableEq, Repr

/-- One row of the `categories` table. -/
structure CatRow where
  id : Int
  created_at : DateTime
  name : String
  description : String
deriving DecidableEq, Repr

/-- The `categories` table state: rows plus the `id` sequence. -/
structure CatsDB where
  rows : List CatRow
  nextId : Int
deriving DecidableEq, Repr

def CatsDB.wf (db : CatsDB) : Prop :=
  db.rows.Pairwise (fun a b => a.id ≠ b.id) ∧ ∀ r ∈ db.rows, 1 ≤ r.id ∧ r.id < db.nextId

instance (db : CatsDB) : Decidable db.wf := by
  unfold CatsDB.wf; infer_instance

def CatRow.toCategory (r : CatRow) : Category :=
  { ID := r.id, CreatedAt := r.created_at, Name := r.name, Description := r.description }

/-- `CategoryModel.Insert`: `INSERT INTO categories (name, description)
VALUES ($1, $2) RETURNING id, created_at`, issued via `QueryRow` with no
timeout context; the scan writes `id` and `created_at` back. -/
def CategoryModel.Insert (now : DateTime) (latency : Nat) (db : CatsDB) (category : Category) :
    Nat × CatsDB × Except StoreErr Category :=
  if timesOut .catInsert latency then (1, db, .error .backend)
  else
    let row : CatRow :=
      { id := db.nextId, created_at := now, name := category.Name,
        description := category.Description }
    (1, ⟨db.rows ++ [row], db.nextId + 1⟩,
      .ok { category with ID := db.nextId, CreatedAt := now })

/-- `CategoryModel.Get`: `id < 1` short-circuits to `ErrRecordNotFound`
with no backend query; then `SELECT … WHERE id = $1` under a 3-second
timeout. -/
def CategoryModel.Get (latency : Nat) (db : CatsDB) (id : Int) :
    Nat × Except StoreErr Category :=
  if id < 1 then (0, .error .notFound)
  else if timesOut .catGet latency then (1, .error .backend)
  else
    match db.rows.find? (fun r => r.id == id) with
    | none => (1, .error .notFound)
    | some r => (1, .ok r.toCategory)

/-- `CategoryModel.Update`: an *unconditional*
`UPDATE categories SET name = $1, description = $2 WHERE id = $3` under a
3-second timeout, via `ExecContext`; the affected-row count is discarded
(`_, err := …`), so a missing id is not detected and the only failure is
a backend error. -/
def CategoryModel.Update (latency : Nat) (db : CatsDB) (category : Category) :
    Nat × CatsDB × Except StoreErr Unit :=
  if timesOut .catUpdate latency then (1, db, .error .backend)
  else
    let newRows := db.rows.map fun r =>
      if r.id == category.ID then
        { r with name := category.Name, description := category.Description }
      else r
    (1, { db with rows := newRows }, .ok ())

/-- `CategoryModel.Delete`: `id < 1` short-circuits; otherwise
`DELETE FROM categories WHERE id = $1` under a 3-second timeout, with
`RowsAffected() == 0` reported as `ErrRecordNotFound`. -/
def CategoryModel.Delete (latency : Nat) (db : CatsDB) (id : Int) :
    Nat × CatsDB × Except StoreErr Unit :=
  if id < 1 then (0, db, .error .notFound)
  else if timesOut .catDelete latency then (1, db, .error .backend)
  else
    let affected := (db.rows.filter fun r => r.id == id).length
    if affected == 0 then (1, db, .error .notFound)
    else (1, { db with rows := db.rows.filter fun r => !(r.id == id) }, .ok ())

/-- Columns of the `categories` table. -/
def catSortable (c : String) : Bool :=
  ["id", "created_at", "name", "description"].contains c

def CatRow.colVal (r : CatRow) (c : String) : ColVal :=
  if c = "created_at" then .time r.created_at
  else if c = "name" then .str r.name
  else if c = "description" then .str r.description
  else .int r.id

/-- `CategoryModel.GetAll`: like the task version but with *no filter at
all* — the query has no `WHERE` clause and the method takes no name
argument; every row is counted and returned (subject to the window). -/
def CategoryModel.GetAll (latency : Nat) (db : CatsDB) (filters : Filters) :
    Nat × Except StoreErr (List Category × Metadata) :=
  match filters.sortColumn with
  | none => (0, .error .backend)
  | some c =>
    if !(catSortable c) then (1, .error .backend)
    else if timesOut .catGetAll latency then (1, .error .backend)
    else
      let desc := filters.sortDirection == "DESC"
      let sorted := db.rows.mergeSort (keyedRowLe (fun r => r.colVal c) (fun r => r.id) desc)
      let windowed := (sorted.drop filters.offset.toNat).take filters.limit.toNat
      let totalRecords : Int := if windowed.isEmpty then 0 else db.rows.length
      (1, .ok (windowed.map CatRow.toCategory,
        calculateMetadata totalRecords filters.Page filters.PageSize))

/-! ### The list-tasks endpoint (`cmd/api/routes.go`) -/

/-- The sort safelist `listTasksHandler` installs. -/
def taskSortSafelist : List String :=
  ["id", "title", "priority", "category", "-id", "-title", "-priority", "-category"]

/-- Outcome of the list-tasks endpoint. -/
inductive ListResponse where
  | failedValidation (errors : List (String × String))
  | serverError
  | ok (tasks : List Task) (metadata : Metadata)
deriving DecidableEq, Repr

/-- `listTasksHandler`: reads the query parameters, installs the endpoint
safelist, validates, and only on success invokes the store.  The first
component counts store calls. -/
def listTasksHandler (latency : Nat) (db : TasksDB) (title : String)
    (page pageSize : Int) (sort : String) : Nat × ListResponse :=
  let f : Filters := ⟨page, pageSize, sort, taskSortSafelist⟩
  let v := ValidateFilters ⟨[]⟩ f
  if v.Valid then
    match TaskModel.GetAll latency db title f with
    | (_, .error _) => (1, .serverError)
    | (_, .ok (tasks, md)) => (1, .ok tasks md)
  else (0, .failedValidation v.Errors)

/-! ### Helper lemmas about the store -/

/-- Operations with an installed timeout never trip it when the backend
answers within 3 time units. -/
theorem timesOut_eq_false {op : StoreOp} {latency : Nat} (h : latency ≤ 3) :
    timesOut op latency = false := by
  cases op <;> simp [timesOut, opTimeout] <;> omega

theorem timesOut_insert (latency : Nat) : timesOut .taskInsert latency = false := rfl

theorem timesOut_catInsert (latency : Nat) : timesOut .catInsert latency = false := rfl

/-! ### C8: id guard and delete semantics -/

/-- C8: on both models, `get` and `delete` with `id < 1` return `NotFound`
with zero backend queries; a delete whose execution affects zero rows (no
row with that id) also returns `NotFound`; and delete is unconditional on
`version` — rewriting every row's version arbitrarily never changes a
task delete's outcome. -/
theorem store_id_guard_and_delete (latency : Nat) (id : Int)
    (tdb : TasksDB) (cdb : CatsDB) :
    (id < 1 →
      TaskModel.Get latency tdb id = (0, .error .notFound) ∧
      TaskModel.Delete latency tdb id = (0, tdb, .error .notFound) ∧
      CategoryModel.Get latency cdb id = (0, .error .notFound) ∧
      CategoryModel.Delete latency cdb id = (0, cdb, .error .notFound)) ∧
    (1 ≤ id → latency ≤ 3 → (∀ r ∈ tdb.rows, r.id ≠ id) →
      TaskModel.Delete latency tdb id = (1, tdb, .error .notFound)) ∧
    (1 ≤ id → latency ≤ 3 → (∀ r ∈ cdb.rows, r.id ≠ id) →
      CategoryModel.Delete latency cdb id = (1, cdb, .error .notFound)) ∧
    (∀ v : Int,
      (TaskModel.Delete latency tdb id).2.2 =
        (TaskModel.Delete latency
          ⟨tdb.rows.map (fun r => { r with version := v }), tdb.nextId, tdb.nextUserId⟩
          id).2.2) := by
  refine ⟨?_, ?_, ?_, ?_⟩
  · intro hid
    refine ⟨?_, ?_, ?_, ?_⟩ <;>
      simp [TaskModel.Get, TaskModel.Delete, CategoryModel.Get, CategoryModel.Delete, hid]
  · intro hid hl hnone
    have hfil : tdb.rows.filter (fun r => r.id == id) = [] := by
      apply List.filter_eq_nil_iff.mpr
      intro r hr
      simpa using hnone r hr
    simp [TaskModel.Delete, timesOut_eq_false hl, hfil]
    omega
  · intro hid hl hnone
    have hfil : cdb.rows.filter (fun r => r.id == id) = [] := by
      apply List.filter_eq_nil_iff.mpr
      intro r hr
      simpa using hnone r hr
    simp [CategoryModel.Delete, timesOut_eq_false hl, hfil]
    omega
  · intro v
    unfold TaskModel.Delete
    by_cases hid : id < 1
    · simp [hid]
    · by_cases hto : timesOut .taskDelete latency = true
      · simp [hid, hto]
      · have hpred : ((fun r : TaskRow => r.id == id)
            ∘ (fun r : TaskRow => { r with version := v })) = (fun r : TaskRow => r.id == id) := by
          funext r
          rfl
        have hlen : ((tdb.rows.map (fun r : TaskRow => { r with version := v })).filter
            (fun r => r.id == id)).length
            = (tdb.rows.filter (fun r : TaskRow => r.id == id)).length := by
          rw [List.filter_map, List.length_map, hpred]
        simp only [if_neg hid, hto, Bool.false_eq_true, if_false, hlen]
        by_cases hz : ((tdb.rows.filter (fun r : TaskRow => r.id == id)).length == 0) = true <;>
          simp [hz]

/-- Witness for C8 at concrete inputs. -/
theorem store_id_guard_and_delete_witness :
    TaskModel.Get 0 ⟨[], 1, 1⟩ 0 = (0, .error .notFound) ∧
    CategoryModel.Delete 0 ⟨[], 1⟩ (-5) = (0, ⟨[], 1⟩, .error .notFound) ∧
    TaskModel.Delete 0 ⟨[], 1, 1⟩ 7 = (1, ⟨[], 1, 1⟩, .error .notFound) := by
  have h := store_id_guard_and_delete 0 0 ⟨[], 1, 1⟩ ⟨[], 1⟩
  have h5 := store_id_guard_and_delete 0 (-5) ⟨[], 1, 1⟩ ⟨[], 1⟩
  have h7 := store_id_guard_and_delete 0 7 ⟨[], 1, 1⟩ ⟨[], 1⟩
  exact ⟨(h.1 (by decide)).1, (h5.1 (by decide)).2.2.2,
    h7.2.1 (by decide) (by decide) (by simp)⟩

/-! ### C9: category update is unconditional -/

/-- C9: `CategoryModel.Update` issues an unconditional `UPDATE` and never
inspects the affected-row count: within the timeout it succeeds even when
no row with the entity's id exists (leaving the table unchanged), and its
only possible failure is a backend error — never `NotFound` or
`EditConflict`. -/
theorem category_update_unconditional (latency : Nat) (db : CatsDB) (category : Category) :
    (latency ≤ 3 → (CategoryModel.Update latency db category).2.2 = .ok ()) ∧
    (latency ≤ 3 → (∀ r ∈ db.rows, r.id ≠ category.ID) →
      CategoryModel.Update latency db category = (1, db, .ok ())) ∧
    (CategoryModel.Update latency db category).2.2 ≠ .error .notFound ∧
    (CategoryModel.Update latency db category).2.2 ≠ .error .editConflict := by
  refine ⟨?_, ?_, ?_, ?_⟩
  · intro hl
    simp [CategoryModel.Update, timesOut_eq_false hl]
  · intro hl hnone
    have hcong : ∀ r ∈ db.rows, (if r.id == category.ID then
        ({ r with name := category.Name, description := category.Description } : CatRow)
        else r) = r := by
      intro r hr
      simp [hnone r hr]
    have hmap : db.rows.map (fun r =>
        if r.id == category.ID then
          { r with name := category.Name, description := category.Description }
        else r) = db.rows := by
      have h1 := List.map_congr_left hcong
      simpa using h1
    simp only [CategoryModel.Update, timesOut_eq_false hl, Bool.false_eq_true, if_false]
    rw [hmap]
  · unfold CategoryModel.Update
    split <;> simp
  · unfold CategoryModel.Update
    split <;> simp

/-- Witness for C9 at concrete inputs. -/
theorem category_update_unconditional_witness :
    CategoryModel.Update 0 ⟨[], 1⟩ ⟨9, ⟨2024, 1, 1, 0, 0, 0, 0⟩, "n", "d"⟩
      = (1, ⟨[], 1⟩, .ok ()) :=
  (category_update_unconditional 0 ⟨[], 1⟩
    ⟨9, ⟨2024, 1, 1, 0, 0, 0, 0⟩, "n", "d"⟩).2.1 (by decide) (by simp)

/-! ### C10: failed task updates leave the entity untouched -/

/-- C10: `TaskModel.Update` writes back into the caller's entity only on
success, and then only the `version` field (set to the matched stored
version plus one, i.e. the caller's version plus one); on `EditConflict`
or a backend error the entity — in particular its `version` — is
returned exactly as passed. -/
theorem task_update_entity_mutation (latency : Nat) (db : TasksDB) (task : Task) :
    (∀ e, (TaskModel.Update latency db task).2.2.2 = .error e →
      (TaskModel.Update latency db task).2.2.1 = task) ∧
    ((TaskModel.Update latency db task).2.2.2 = .ok () →
      (TaskModel.Update latency db task).2.2.1 = { task with Version := task.Version + 1 }) := by
  constructor
  · intro e herr
    unfold TaskModel.Update at *
    split at herr
    · simp_all
    · split at herr
      · simp_all
      · split at herr <;> simp_all
  · intro hok
    unfold TaskModel.Update at hok ⊢
    by_cases hto : timesOut .taskUpdate latency = true
    · simp [hto] at hok
    · simp only [hto, Bool.false_eq_true, if_false] at hok ⊢
      cases hfind : db.rows.find? (fun r => r.id == task.ID && r.version == task.Version) with
      | none => simp [hfind] at hok
      | some r =>
        simp only [hfind] at hok ⊢
        have hpred := List.find?_some hfind
        simp only [Bool.and_eq_true, beq_iff_eq] at hpred
        by_cases hovf : maxInt32 < r.version + 1
        · simp [hovf] at hok
        · simp only [if_neg hovf]
          simp [hpred.2]

/-- Witness for C10: a conflicting update (empty table) returns the entity
unchanged. -/
theorem task_update_entity_mutation_witness :
    (TaskModel.Update 0 ⟨[], 1, 1⟩
        ⟨3, ⟨2024, 1, 1, 0, 0, 0, 0⟩, "T", "D", ⟨2024, 6, 1, 0, 0, 0, 0⟩,
          "p", "s", "c", 1, 4⟩).2.2.1
      = ⟨3, ⟨2024, 1, 1, 0, 0, 0, 0⟩, "T", "D", ⟨2024, 6, 1, 0, 0, 0, 0⟩,
          "p", "s", "c", 1, 4⟩ :=
  (task_update_entity_mutation 0 ⟨[], 1, 1⟩
    ⟨3, ⟨2024, 1, 1, 0, 0, 0, 0⟩, "T", "D", ⟨2024, 6, 1, 0, 0, 0, 0⟩,
      "p", "s", "c", 1, 4⟩).1 .editConflict rfl

/-! ### C7: per-call timeouts -/

/-- C7 counterexample: both `Insert` methods issue their query with no
timeout context at all, so a backend latency far above 3 time units still
completes normally instead of being abandoned with a `Backend` error. -/
theorem insert_has_no_timeout :
    opTimeout .taskInsert = none ∧ opTimeout .catInsert = none ∧
    (TaskModel.Insert ⟨2024, 1, 1, 0, 0, 0, 0⟩ 100 ⟨[], 1, 1⟩
        ⟨0, ⟨1, 1, 1, 0, 0, 0, 0⟩, "T", "D", ⟨2024, 6, 1, 0, 0, 0, 0⟩, "p", "s", "c", 0, 0⟩).2.2
      = .ok ⟨1, ⟨2024, 1, 1, 0, 0, 0, 0⟩, "T", "D", ⟨2024, 6, 1, 0, 0, 0, 0⟩,
          "p", "s", "c", 1, 1⟩ ∧
    (CategoryModel.Insert ⟨2024, 1, 1, 0, 0, 0, 0⟩ 100 ⟨[], 1⟩
        ⟨0, ⟨1, 1, 1, 0, 0, 0, 0⟩, "n", "d"⟩).2.2
      = .ok ⟨1, ⟨2024, 1, 1, 0, 0, 0, 0⟩, "n", "d"⟩ :=
  ⟨rfl, rfl, rfl, rfl⟩

/-- C7 (amended): every query-issuing store operation *except the two
inserts* installs a fixed 3-second per-call timeout, and when the backend
exceeds it the call abandons the operation and returns a `Backend` error
(never a silent empty result); `TaskModel.Insert` and
`CategoryModel.Insert` issue their query with no per-call timeout. -/
theorem per_call_timeout_amended :
    (∀ op, op ≠ StoreOp.taskInsert → op ≠ StoreOp.catInsert → opTimeout op = some 3) ∧
    opTimeout .taskInsert = none ∧ opTimeout .catInsert = none ∧
    (∀ (latency : Nat), 3 < latency →
      (∀ (db : TasksDB) (id : Int), 1 ≤ id →
        TaskModel.Get latency db id = (1, .error .backend)) ∧
      (∀ (db : TasksDB) (task : Task),
        TaskModel.Update latency db task = (1, db, task, .error .backend)) ∧
      (∀ (db : TasksDB) (id : Int), 1 ≤ id →
        TaskModel.Delete latency db id = (1, db, .error .backend)) ∧
      (∀ (db : TasksDB) (title : String) (f : Filters) (c : String),
        f.sortColumn = some c → taskSortable c = true →
        TaskModel.GetAll latency db title f = (1, .error .backend)) ∧
      (∀ (db : CatsDB) (id : Int), 1 ≤ id →
        CategoryModel.Get latency db id = (1, .error .backend)) ∧
      (∀ (db : CatsDB) (category : Category),
        CategoryModel.Update latency db category = (1, db, .error .backend)) ∧
      (∀ (db : CatsDB) (id : Int), 1 ≤ id →
        CategoryModel.Delete latency db id = (1, db, .error .backend)) ∧
      (∀ (db : CatsDB) (f : Filters) (c : String),
        f.sortColumn = some c → catSortable c = true →
        CategoryModel.GetAll latency db f = (1, .error .backend))) := by
  have hto : ∀ op, opTimeout op = some 3 → ∀ latency, 3 < latency →
      timesOut op latency = true := by
    intro op hop latency hl
    simp [timesOut, hop]
    omega
  refine ⟨?_, rfl, rfl, ?_⟩
  · intro op h1 h2
    cases op <;> simp_all [opTimeout]
  · intro latency hl
    refine ⟨?_, ?_, ?_, ?_, ?_, ?_, ?_, ?_⟩
    · intro db id hid
      simp [TaskModel.Get, hto .taskGet rfl latency hl]
      omega
    · intro db task
      simp [TaskModel.Update, hto .taskUpdate rfl latency hl]
    · intro db id hid
      simp [TaskModel.Delete, hto .taskDelete rfl latency hl]
      omega
    · intro db title f c hc hsortable
      simp [TaskModel.GetAll, hc, hsortable, hto .taskGetAll rfl latency hl]
    · intro db id hid
      simp [CategoryModel.Get, hto .catGet rfl latency hl]
      omega
    · intro db category
      simp [CategoryModel.Update, hto .catUpdate rfl latency hl]
    · intro db id hid
      simp [CategoryModel.Delete, hto .catDelete rfl latency hl]
      omega
    · intro db f c hc hsortable
      simp [CategoryModel.GetAll, hc, hsortable, hto .catGetAll rfl latency hl]

/-- Witness for the amended C7 theorem at concrete inputs. -/
theorem per_call_timeout_amended_witness :
    TaskModel.Get 4 ⟨[], 1, 1⟩ 1 = (1, .error .backend) ∧
    CategoryModel.Update 4 ⟨[], 1⟩ ⟨1, ⟨2024, 1, 1, 0, 0, 0, 0⟩, "n", "d"⟩
      = (1, ⟨[], 1⟩, .error .backend) := by
  have h := per_call_timeout_amended.2.2.2 4 (by decide)
  exact ⟨h.1 ⟨[], 1, 1⟩ 1 (by decide),
    h.2.2.2.2.2.1 ⟨[], 1⟩ ⟨1, ⟨2024, 1, 1, 0, 0, 0, 0⟩, "n", "d"⟩⟩

/-! ### C1: optimistic-concurrency update -/

/-- `N` sequential update calls, each feeding the written-back entity into
the next; stops at the first failure. -/
def TaskModel.UpdateN (latency : Nat) : Nat → TasksDB → Task → TasksDB × Task × Except StoreErr Unit
  | 0, db, task => (db, task, .ok ())
  | n + 1, db, task =>
    match TaskModel.Update latency db task with
    | (_, db', task', .ok ()) => TaskModel.UpdateN latency n db' task'
    | (_, db', task', .error e) => (db', task', .error e)

/-- On success the written-back entity is the input with `version`
incremented by exactly one. -/
theorem update_version_succ (latency : Nat) (db : TasksDB) (task : Task)
    (hok : (TaskModel.Update latency db task).2.2.2 = .ok ()) :
    (TaskModel.Update latency db task).2.2.1 = { task with Version := task.Version + 1 } := by
  unfold TaskModel.Update at hok ⊢
  by_cases hto : timesOut .taskUpdate latency = true
  · simp [hto] at hok
  · simp only [hto, Bool.false_eq_true, if_false] at hok ⊢
    cases hfind : db.rows.find? (fun r => r.id == task.ID && r.version == task.Version) with
    | none => simp [hfind] at hok
    | some r =>
      simp only [hfind] at hok ⊢
      have hpred := List.find?_some hfind
      simp only [Bool.and_eq_true, beq_iff_eq] at hpred
      by_cases hovf : maxInt32 < r.version + 1
      · simp [hovf] at hok
      · simp only [if_neg hovf]
        simp [hpred.2]

/-- Rows with the same id in a well-formed table coincide. -/
theorem wf_id_unique {db : TasksDB} (h : db.wf) {a b : TaskRow}
    (ha : a ∈ db.rows) (hb : b ∈ db.rows) (hid : a.id = b.id) : a = b := by
  by_contra hne
  exact h.1.forall (fun x y hxy => fun hyx => hxy hyx.symm) ha hb hne hid

/-- C1: the update is one conditional write keyed on `(id, version)`.
With no matching row it reports `EditConflict` after a single statement,
leaving table and entity untouched (no retry); with a matching row it
succeeds, advancing both the stored version and the entity's version to
the caller's version plus one; and `N` sequential successful updates
advance the entity's version by exactly `N`. -/
theorem task_update_cas (latency : Nat) (db : TasksDB) (task : Task) :
    (latency ≤ 3 → (∀ r ∈ db.rows, ¬(r.id = task.ID ∧ r.version = task.Version)) →
      TaskModel.Update latency db task = (1, db, task, .error .editConflict)) ∧
    (latency ≤ 3 → db.wf → ∀ r ∈ db.rows, r.id = task.ID → r.version = task.Version →
      r.version + 1 ≤ maxInt32 →
      ∃ db', TaskModel.Update latency db task
          = (1, db', { task with Version := task.Version + 1 }, .ok ()) ∧
        (∀ r' ∈ db'.rows, r'.id = task.ID → r'.version = task.Version + 1) ∧
        (∀ r' ∈ db'.rows, r'.id ≠ task.ID → r' ∈ db.rows)) ∧
    (∀ (N : Nat) (db' : TasksDB) (task' : Task),
      TaskModel.UpdateN latency N db task = (db', task', .ok ()) →
      task'.Version = task.Version + N) := by
  refine ⟨?_, ?_, ?_⟩
  · intro hl hnone
    have hfind : db.rows.find? (fun r => r.id == task.ID && r.version == task.Version) = none := by
      apply List.find?_eq_none.mpr
      intro r hr
      have := hnone r hr
      simp_all
    simp [TaskModel.Update, timesOut_eq_false hl, hfind]
  · intro hl hwf r hr hrid hrv hovf
    have hsome : (db.rows.find? (fun r => r.id == task.ID && r.version == task.Version)).isSome := by
      rw [List.find?_isSome]
      exact ⟨r, hr, by simp [hrid, hrv]⟩
    obtain ⟨r1, hfind⟩ := Option.isSome_iff_exists.mp hsome
    have hpred := List.find?_some hfind
    simp only [Bool.and_eq_true, beq_iff_eq] at hpred
    have hr1mem := List.mem_of_find?_eq_some hfind
    have heq : TaskModel.Update latency db task
        = (1, { db with rows := db.rows.map fun r' =>
            if r'.id == task.ID && r'.version == task.Version then
              { r' with title := task.Title, description := task.Description,
                        priority := task.Priority, status := task.Status,
                        category := task.Category, due_date := task.DueDate,
                        user_id := task.UserID, version := r'.version + 1 }
            else r' },
          { task with Version := task.Version + 1 }, .ok ()) := by
      simp only [TaskModel.Update, timesOut_eq_false hl, Bool.false_eq_true, if_false, hfind]
      rw [if_neg (by omega)]
      simp [hpred.2]
    refine ⟨_, heq, ?_, ?_⟩
    · intro r' hr'mem hr'id
      simp only [List.mem_map] at hr'mem
      obtain ⟨x, hx, hxr'⟩ := hr'mem
      by_cases hc : x.id = task.ID ∧ x.version = task.Version
      · rw [if_pos (by simp [hc.1, hc.2])] at hxr'
        rw [← hxr']
        simp [hc.2]
      · rw [if_neg (by simpa using hc)] at hxr'
        have hxid : x.id = r1.id := by
          rw [hxr', hpred.1]
          exact hr'id
        have hxr1 := wf_id_unique hwf hx hr1mem hxid
        subst hxr1
        exact absurd ⟨hpred.1, hpred.2⟩ hc
    · intro r' hr'mem hr'id
      simp only [List.mem_map] at hr'mem
      obtain ⟨x, hx, hxr'⟩ := hr'mem
      by_cases hc : x.id = task.ID ∧ x.version = task.Version
      · refine absurd ?_ hr'id
        rw [← hxr']
        simp [hc.1, hc.2]
      · rw [if_neg (by simpa using hc)] at hxr'
        rw [← hxr']
        exact hx
  · intro N
    induction N generalizing db task with
    | zero =>
      intro db' task' h
      simp only [TaskModel.UpdateN] at h
      injection h with h1 h2
      injection h2 with h2 h3
      subst h2
      omega
    | succ n ih =>
      intro db' task' h
      simp only [TaskModel.UpdateN] at h
      cases hu : TaskModel.Update latency db task with
      | mk q rest =>
        obtain ⟨db1, task1, res⟩ := rest
        rw [hu] at h
        cases res with
        | error e => simp at h
        | ok u =>
          cases u
          simp only at h
          have hv1 : task1.Version = task.Version + 1 := by
            have h2 := update_version_succ latency db task (by rw [hu])
            rw [hu] at h2
            simp only at h2
            simp [h2]
          have := ih db1 task1 db' task' h
          omega

/-- Witness for C1 at concrete inputs: an update against an empty table
conflicts without touching anything, and two sequential successful
updates advance the version from 1 to 3. -/
theorem task_update_cas_witness :
    TaskModel.Update 0 ⟨[], 1, 1⟩
        ⟨1, ⟨2024, 1, 1, 0, 0, 0, 0⟩, "T", "D", ⟨2024, 6, 1, 0, 0, 0, 0⟩, "p", "s", "c", 1, 1⟩
      = (1, ⟨[], 1, 1⟩,
          ⟨1, ⟨2024, 1, 1, 0, 0, 0, 0⟩, "T", "D", ⟨2024, 6, 1, 0, 0, 0, 0⟩, "p", "s", "c", 1, 1⟩,
          .error .editConflict) ∧
    (TaskModel.UpdateN 0 2
        ⟨[⟨1, ⟨2024, 1, 1, 0, 0, 0, 0⟩, "T", "D", ⟨2024, 6, 1, 0, 0, 0, 0⟩, "p", "s", "c", 1, 1⟩], 2, 2⟩
        ⟨1, ⟨2024, 1, 1, 0, 0, 0, 0⟩, "T", "D", ⟨2024, 6, 1, 0, 0, 0, 0⟩, "p", "s", "c", 1, 1⟩).2.1.Version
      = 1 + 2 := by
  constructor
  · exact (task_update_cas 0 ⟨[], 1, 1⟩ _).1 (by decide) (by simp)
  · have h := (task_update_cas 0
      ⟨[⟨1, ⟨2024, 1, 1, 0, 0, 0, 0⟩, "T", "D", ⟨2024, 6, 1, 0, 0, 0, 0⟩, "p", "s", "c", 1, 1⟩], 2, 2⟩
      ⟨1, ⟨2024, 1, 1, 0, 0, 0, 0⟩, "T", "D", ⟨2024, 6, 1, 0, 0, 0, 0⟩, "p", "s", "c", 1, 1⟩).2.2
      2 _ _ rfl
    exact h

/-! ### C2: insert / get round trip -/

/-- A draft task whose caller-supplied `UserID` is 42. -/
def draftTask : Task :=
  ⟨0, ⟨1, 1, 1, 0, 0, 0, 0⟩, "T", "D", ⟨2024, 6, 1, 0, 0, 0, 0⟩,
    "high", "todo", "work", 42, 0⟩

/-- C2 counterexample: `Insert` omits `user_id` from its column list, so
the backend assigns it from the `user_id` bigserial sequence (here 7) and
the caller-supplied value 42 is discarded — `get` after `insert` returns
`userId = 7`, not the value that was passed in. -/
theorem task_insert_discards_userid :
    draftTask.UserID = 42 ∧
    (TaskModel.Get 0 (TaskModel.Insert ⟨2024, 1, 1, 0, 0, 0, 0⟩ 0 ⟨[], 1, 7⟩ draftTask).2.1 1).2
      = .ok { draftTask with ID := 1, CreatedAt := ⟨2024, 1, 1, 0, 0, 0, 0⟩,
                             UserID := 7, Version := 1 } ∧
    ({ draftTask with ID := 1, CreatedAt := ⟨2024, 1, 1, 0, 0, 0, 0⟩,
                      UserID := 7, Version := 1 } : Task).UserID ≠ 42 :=
  ⟨rfl, rfl, by decide⟩

/-- C2 (amended): `insert` followed by `get` on the assigned id returns
the inserted entity with the server-assigned fields populated — `id`,
`createdAt`, `version = 1`, *and also `userId`*, which the backend draws
from its own sequence rather than persisting the caller's value; all
other caller-supplied fields come back as given.  (`Insert` itself never
times out: it installs no timeout context.) -/
theorem task_insert_get_roundtrip (now : DateTime) (lat1 lat2 : Nat)
    (db : TasksDB) (task : Task)
    (hwf : ∀ r ∈ db.rows, r.id < db.nextId) (hpos : 1 ≤ db.nextId) (hl2 : lat2 ≤ 3) :
    TaskModel.Insert now lat1 db task
        = (1, ⟨db.rows ++ [⟨db.nextId, now, task.Title, task.Description, task.DueDate,
              task.Priority, task.Status, task.Category, db.nextUserId, 1⟩],
            db.nextId + 1, db.nextUserId + 1⟩,
          .ok { task with ID := db.nextId, CreatedAt := now,
                          UserID := db.nextUserId, Version := 1 }) ∧
    (TaskModel.Get lat2 (TaskModel.Insert now lat1 db task).2.1 db.nextId).2
        = .ok { task with ID := db.nextId, CreatedAt := now,
                          UserID := db.nextUserId, Version := 1 } := by
  constructor
  · rfl
  · have hfind : ((TaskModel.Insert now lat1 db task).2.1).rows.find?
        (fun r => r.id == db.nextId)
        = some ⟨db.nextId, now, task.Title, task.Description, task.DueDate,
            task.Priority, task.Status, task.Category, db.nextUserId, 1⟩ := by
      show (db.rows ++ [_]).find? _ = _
      rw [List.find?_append]
      have h1 : db.rows.find? (fun r => r.id == db.nextId) = none := by
        apply List.find?_eq_none.mpr
        intro r hr
        have := hwf r hr
        simp
        omega
      simp [h1]
    simp only [TaskModel.Get, timesOut_eq_false hl2, Bool.false_eq_true, if_false, hfind]
    rw [if_neg (by omega)]
    rfl

/-- Witness for the amended C2 theorem at concrete inputs. -/
theorem task_insert_get_roundtrip_witness :
    (TaskModel.Get 0 (TaskModel.Insert ⟨2024, 1, 1, 0, 0, 0, 0⟩ 0 ⟨[], 1, 7⟩ draftTask).2.1 1).2
      = .ok { draftTask with ID := 1, CreatedAt := ⟨2024, 1, 1, 0, 0, 0, 0⟩,
                             UserID := 7, Version := 1 } :=
  (task_insert_get_roundtrip ⟨2024, 1, 1, 0, 0, 0, 0⟩ 0 0 ⟨[], 1, 7⟩ draftTask
    (by simp) (by decide) (by decide)).2

/-! ### C6: sort safelist enforcement -/

/-- `AddError` always leaves at least one recorded message. -/
theorem addError_errors_ne_nil (v : Validator) (k m : String) :
    (v.AddError k m).Errors ≠ [] := by
  unfold Validator.AddError
  split
  · rename_i hany
    intro hnil
    rw [hnil] at hany
    simp at hany
  · simp

/-- A validator that just recorded a message is not valid. -/
theorem valid_addError_false (v : Validator) (k m : String) :
    (v.AddError k m).Valid = false := by
  unfold Validator.Valid
  cases hE : (v.AddError k m).Errors with
  | nil => exact absurd hE (addError_errors_ne_nil _ _ _)
  | cons a l => rfl

/-- C6: `sortColumn` only ever produces a token obtained from a safelist
member by stripping its leading `-`, so only safelisted tokens reach the
dynamically built query text; and for any client sort value outside the
endpoint safelist, validation fails and the handler makes zero store
calls. -/
theorem sort_safelist_enforced :
    (∀ (f : Filters) (c : String), f.sortColumn = some c →
      ∃ s ∈ f.SortSafelist, c = trimDash s) ∧
    (∀ (latency : Nat) (db : TasksDB) (title : String) (page pageSize : Int) (sort : String),
      sort ∉ taskSortSafelist →
      (ValidateFilters ⟨[]⟩ ⟨page, pageSize, sort, taskSortSafelist⟩).Valid = false ∧
      listTasksHandler latency db title page pageSize sort
        = (0, .failedValidation
            (ValidateFilters ⟨[]⟩ ⟨page, pageSize, sort, taskSortSafelist⟩).Errors)) := by
  constructor
  · intro f c hc
    unfold Filters.sortColumn at hc
    split at hc
    · rename_i hmem
      injection hc with hc
      exact ⟨f.sort, by simpa using hmem, hc.symm⟩
    · exact absurd hc (by simp)
  · intro latency db title page pageSize sort hnotmem
    have hcontains : (⟨page, pageSize, sort, taskSortSafelist⟩ : Filters).SortSafelist.contains
        (⟨page, pageSize, sort, taskSortSafelist⟩ : Filters).sort = false := by
      simpa using hnotmem
    have hvalid : (ValidateFilters ⟨[]⟩ ⟨page, pageSize, sort, taskSortSafelist⟩).Valid = false := by
      unfold ValidateFilters Validator.Check
      rw [if_neg (by simpa using hnotmem)]
      exact valid_addError_false _ _ _
    refine ⟨hvalid, ?_⟩
    unfold listTasksHandler
    simp only [hvalid, Bool.false_eq_true, if_false]

/-- Witness for C6: the spec's own scenario token `-due_date` is not in
the tasks endpoint safelist, so the endpoint rejects it with zero store
calls. -/
theorem sort_safelist_enforced_witness :
    listTasksHandler 0 ⟨[], 1, 1⟩ "" 1 20 "-due_date"
      = (0, .failedValidation
          (ValidateFilters ⟨[]⟩ ⟨1, 20, "-due_date", taskSortSafelist⟩).Errors) :=
  (sort_safelist_enforced.2 0 ⟨[], 1, 1⟩ "" 1 20 "-due_date" (by decide)).2

/-! ### Ordering lemmas for the `ORDER BY` comparator -/

/-- Propositional characterization of the timestamp order. -/
theorem dtLtB_iff (a b : DateTime) : dtLtB a b = true ↔
    (a.year < b.year ∨ (a.year = b.year ∧ (a.month < b.month ∨ (a.month = b.month ∧
      (a.day < b.day ∨ (a.day = b.day ∧ (a.hour < b.hour ∨ (a.hour = b.hour ∧
      (a.minute < b.minute ∨ (a.minute = b.minute ∧ (a.second < b.second ∨
      (a.second = b.second ∧ a.nsec < b.nsec)))))))))))) := by
  unfold dtLtB
  split_ifs <;> simp_all

theorem dtLtB_trans {a b c : DateTime} (h1 : dtLtB a b = true) (h2 : dtLtB b c = true) :
    dtLtB a c = true := by
  rw [dtLtB_iff] at h1 h2 ⊢
  omega

theorem dtLtB_asymm {a b : DateTime} (h1 : dtLtB a b = true) : dtLtB b a = false := by
  cases hba : dtLtB b a
  · rfl
  · rw [dtLtB_iff] at h1 hba
    omega

theorem dtLtB_eq_of_incomp {a b : DateTime} (h1 : dtLtB a b = false)
    (h2 : dtLtB b a = false) : a = b := by
  have h1' : ¬(dtLtB a b = true) := by simp [h1]
  have h2' : ¬(dtLtB b a = true) := by simp [h2]
  rw [dtLtB_iff] at h1' h2'
  obtain ⟨y1, mo1, d1, hh1, mi1, s1, n1⟩ := a
  obtain ⟨y2, mo2, d2, hh2, mi2, s2, n2⟩ := b
  simp only [DateTime.mk.injEq]
  simp only at h1' h2'
  omega

theorem colValLt_trans {x y z : ColVal} (h1 : colValLt x y = true)
    (h2 : colValLt y z = true) : colValLt x z = true := by
  cases x <;> cases y <;> cases z <;>
    simp only [colValLt, decide_eq_true_eq] at h1 h2 ⊢ <;>
    first
      | trivial
      | omega
      | exact lt_trans h1 h2
      | exact dtLtB_trans h1 h2

theorem colValLt_asymm {x y : ColVal} (h1 : colValLt x y = true) :
    colValLt y x = false := by
  cases x <;> cases y <;>
    simp only [colValLt, decide_eq_true_eq, decide_eq_false_iff_not] at h1 ⊢ <;>
    first
      | trivial
      | omega
      | exact not_lt.mpr (le_of_lt h1)
      | exact dtLtB_asymm h1

theorem colValLt_eq_of_incomp {x y : ColVal} (h1 : colValLt x y = false)
    (h2 : colValLt y x = false) : x = y := by
  cases x <;> cases y <;>
    simp only [colValLt, decide_eq_false_iff_not] at h1 h2 <;>
    first
      | trivial
      | (rename_i a b
         exact congrArg _ (show a = b by omega))
      | (rename_i a b
         exact congrArg _ (le_antisymm (not_lt.mp h2) (not_lt.mp h1)))
      | (rename_i a b
         exact congrArg _ (dtLtB_eq_of_incomp h1 h2))

/-- Trichotomy on column values. -/
theorem colValLt_tri (x y : ColVal) :
    colValLt x y = true ∨ colValLt y x = true ∨ x = y := by
  cases hxy : colValLt x y with
  | true => exact Or.inl rfl
  | false =>
    cases hyx : colValLt y x with
    | true => exact Or.inr (Or.inl rfl)
    | false => exact Or.inr (Or.inr (colValLt_eq_of_incomp hxy hyx))

theorem colValLt_irrefl (x : ColVal) : colValLt x x = false := by
  cases hx : colValLt x x
  · rfl
  · have := colValLt_asymm hx
    simp_all

theorem keyedRowLe_trans {α : Type} (key : α → ColVal) (rowId : α → Int) (desc : Bool)
    {a b c : α} (h1 : keyedRowLe key rowId desc a b = true)
    (h2 : keyedRowLe key rowId desc b c = true) :
    keyedRowLe key rowId desc a c = true := by
  cases desc with
  | false =>
    rcases colValLt_tri (key a) (key b) with hab | hba | habeq
    · rcases colValLt_tri (key b) (key c) with hbc | hcb | hbceq
      · have hac := colValLt_trans hab hbc
        simp [keyedRowLe, hac]
      · have hbc' := colValLt_asymm hcb
        simp [keyedRowLe, hbc', hcb] at h2
      · have hac : colValLt (key a) (key c) = true := by
          rw [← hbceq]
          exact hab
        simp [keyedRowLe, hac]
    · have hab' := colValLt_asymm hba
      simp [keyedRowLe, hab', hba] at h1
    · rcases colValLt_tri (key b) (key c) with hbc | hcb | hbceq
      · have hac : colValLt (key a) (key c) = true := by
          rw [habeq]
          exact hbc
        simp [keyedRowLe, hac]
      · have hbc' := colValLt_asymm hcb
        simp [keyedRowLe, hbc', hcb] at h2
      · have hacq : key a = key c := habeq.trans hbceq
        unfold keyedRowLe at h1 h2 ⊢
        rw [← habeq] at h1
        rw [← hbceq] at h2
        rw [← hacq]
        simp [colValLt_irrefl] at h1 h2 ⊢
        omega
  | true =>
    rcases colValLt_tri (key a) (key b) with hab | hba | habeq
    · have hba' := colValLt_asymm hab
      simp [keyedRowLe, hab, hba'] at h1
    · rcases colValLt_tri (key c) (key b) with hcb | hbc | hbceq
      · have hca := colValLt_trans hcb hba
        have hac := colValLt_asymm hca
        simp [keyedRowLe, hac, hca]
      · have hcb' := colValLt_asymm hbc
        simp [keyedRowLe, hbc, hcb'] at h2
      · have hca : colValLt (key c) (key a) = true := by
          rw [hbceq]
          exact hba
        have hac := colValLt_asymm hca
        simp [keyedRowLe, hac, hca]
    · rcases colValLt_tri (key c) (key b) with hcb | hbc | hbceq
      · have hca : colValLt (key c) (key a) = true := by
          rw [habeq]
          exact hcb
        have hac := colValLt_asymm hca
        simp [keyedRowLe, hac, hca]
      · have hcb' := colValLt_asymm hbc
        simp [keyedRowLe, hbc, hcb'] at h2
      · have hacq : key a = key c := habeq.trans hbceq.symm
        unfold keyedRowLe at h1 h2 ⊢
        rw [← habeq] at h1
        rw [hbceq] at h2
        rw [← hacq]
        simp [colValLt_irrefl] at h1 h2 ⊢
        omega

theorem keyedRowLe_total {α : Type} (key : α → ColVal) (rowId : α → Int) (desc : Bool)
    (a b : α) : (keyedRowLe key rowId desc a b || keyedRowLe key rowId desc b a) = true := by
  rcases colValLt_tri (key a) (key b) with hab | hba | habeq
  · have hba' := colValLt_asymm hab
    cases desc <;> simp [keyedRowLe, hab, hba']
  · have hab' := colValLt_asymm hba
    cases desc <;> simp [keyedRowLe, hab', hba]
  · unfold keyedRowLe
    rw [← habeq]
    simp [colValLt_irrefl]
    omega

/-- Two rows related in both directions share their id. -/
theorem keyedRowLe_antisymm_id {α : Type} (key : α → ColVal) (rowId : α → Int) (desc : Bool)
    {a b : α} (h1 : keyedRowLe key rowId desc a b = true)
    (h2 : keyedRowLe key rowId desc b a = true) : rowId a = rowId b := by
  rcases colValLt_tri (key a) (key b) with hab | hba | habeq
  · have hba' := colValLt_asymm hab
    cases desc with
    | false => simp [keyedRowLe, hab, hba'] at h2
    | true => simp [keyedRowLe, hab, hba'] at h1
  · have hab' := colValLt_asymm hba
    cases desc with
    | false => simp [keyedRowLe, hab', hba] at h1
    | true => simp [keyedRowLe, hab', hba] at h2
  · unfold keyedRowLe at h1 h2
    rw [← habeq] at h1 h2
    simp [colValLt_irrefl] at h1 h2
    omega

/-! ### C3 / C4: list queries -/

/-- Shape of a successful `TaskModel.GetAll`: one query, the filtered rows
sorted and windowed, the window count as scanned by the row loop. -/
theorem taskGetAll_eq (latency : Nat) (db : TasksDB) (title : String) (f : Filters)
    {c : String} (hc : f.sortColumn = some c) (hs : taskSortable c = true) (hl : latency ≤ 3) :
    TaskModel.GetAll latency db title f
      = (1, .ok (((((db.rows.filter (taskMatches title)).mergeSort
            (keyedRowLe (fun r => r.colVal c) (fun r => r.id) (f.sortDirection == "DESC"))).drop
            f.offset.toNat).take f.limit.toNat).map TaskRow.toTask,
          calculateMetadata
            (if ((((db.rows.filter (taskMatches title)).mergeSort
                (keyedRowLe (fun r => r.colVal c) (fun r => r.id) (f.sortDirection == "DESC"))).drop
                f.offset.toNat).take f.limit.toNat).isEmpty then 0
              else ((db.rows.filter (taskMatches title)).length : Int))
            f.Page f.PageSize)) := by
  simp only [TaskModel.GetAll, hc, hs, Bool.not_true, Bool.false_eq_true, if_false,
    timesOut_eq_false hl]

/-- Shape of a successful `CategoryModel.GetAll` (no filter exists). -/
theorem catGetAll_eq (latency : Nat) (db : CatsDB) (f : Filters)
    {c : String} (hc : f.sortColumn = some c) (hs : catSortable c = true) (hl : latency ≤ 3) :
    CategoryModel.GetAll latency db f
      = (1, .ok ((((db.rows.mergeSort
            (keyedRowLe (fun r => r.colVal c) (fun r => r.id) (f.sortDirection == "DESC"))).drop
            f.offset.toNat).take f.limit.toNat).map CatRow.toCategory,
          calculateMetadata
            (if (((db.rows.mergeSort
                (keyedRowLe (fun r => r.colVal c) (fun r => r.id) (f.sortDirection == "DESC"))).drop
                f.offset.toNat).take f.limit.toNat).isEmpty then 0
              else (db.rows.length : Int))
            f.Page f.PageSize)) := by
  simp only [CategoryModel.GetAll, hc, hs, Bool.not_true, Bool.false_eq_true, if_false,
    timesOut_eq_false hl]

/-- Sample rows used by the concrete list-query scenarios. -/
def rowA : TaskRow :=
  ⟨1, ⟨2024, 1, 1, 0, 0, 0, 0⟩, "A", "dA", ⟨2024, 1, 1, 0, 0, 0, 0⟩, "high", "todo", "work", 1, 1⟩

def rowB : TaskRow :=
  ⟨2, ⟨2024, 1, 1, 0, 0, 0, 0⟩, "B", "dB", ⟨2024, 1, 2, 0, 0, 0, 0⟩, "low", "todo", "work", 2, 1⟩

/-- C3 counterexample: over `r = 1` matching row, requesting page 2 (an
empty window) succeeds but scans no rows, so `totalRecords` is 0, not `r`,
and the metadata is all-zero although results exist. -/
theorem getall_total_records_counterexample :
    ((⟨[rowA], 2, 2⟩ : TasksDB).rows.filter (taskMatches "")).length = 1 ∧
    (TaskModel.GetAll 0 ⟨[rowA], 2, 2⟩ "" ⟨2, 20, "id", ["id"]⟩).2
      = .ok ([], ⟨0, 0, 0, 0, 0⟩) := by
  refine ⟨rfl, ?_⟩
  rw [taskGetAll_eq 0 ⟨[rowA], 2, 2⟩ "" ⟨2, 20, "id", ["id"]⟩ (c := "id") rfl rfl (by decide)]
  norm_num [List.mergeSort, Filters.offset, Filters.limit, Filters.sortDirection, hasDash,
    taskMatches, calculateMetadata, rowA]

/-- C3 (amended): a successful `getAll` over `r` matching rows issues a
single query whose window aggregate counts the rows before `LIMIT`/`OFFSET`;
whenever the requested window contains at least one row (`offset < r`),
the metadata reports `totalRecords = r`, `firstPage = 1`,
`currentPage = page`, `pageSize`, and `lastPage = ceil(r / pageSize)`
(characterised by `r ≤ lastPage·pageSize < r + pageSize`); when no rows
fall in the window — in particular when `r = 0` — the call still succeeds,
returning an empty list with every metadata field zero. -/
theorem getall_metadata_amended (latency : Nat) (db : TasksDB) (title : String) (f : Filters)
    {c : String} (hc : f.sortColumn = some c) (hs : taskSortable c = true) (hl : latency ≤ 3)
    (hsize : 1 ≤ f.PageSize) :
    ∃ tasks md, TaskModel.GetAll latency db title f = (1, .ok (tasks, md)) ∧
      ((f.offset.toNat < (db.rows.filter (taskMatches title)).length →
        md.TotalRecords = ((db.rows.filter (taskMatches title)).length : Int) ∧
        md.FirstPage = 1 ∧ md.CurrentPage = f.Page ∧ md.PageSize = f.PageSize ∧
        ((db.rows.filter (taskMatches title)).length : Int) ≤ md.LastPage * f.PageSize ∧
        md.LastPage * f.PageSize
          < ((db.rows.filter (taskMatches title)).length : Int) + f.PageSize) ∧
      ((db.rows.filter (taskMatches title)).length ≤ f.offset.toNat →
        tasks = [] ∧ md = ⟨0, 0, 0, 0, 0⟩)) := by
  have heq := taskGetAll_eq latency db title f hc hs hl
  set matching := db.rows.filter (taskMatches title) with hmatching
  set sorted := matching.mergeSort
    (keyedRowLe (fun r => r.colVal c) (fun r => r.id) (f.sortDirection == "DESC")) with hsorted
  set window := (sorted.drop f.offset.toNat).take f.limit.toNat with hwindow
  have hlen : sorted.length = matching.length := (List.mergeSort_perm _ _).length_eq
  have hwinlen : window.length = min f.limit.toNat (sorted.length - f.offset.toNat) := by
    rw [hwindow, List.length_take, List.length_drop]
  have hlim : 1 ≤ f.limit.toNat := by
    unfold Filters.limit
    omega
  refine ⟨_, _, heq, ?_, ?_⟩
  · intro hoff
    have hne : window ≠ [] := by
      intro hnil
      have : window.length = 0 := by rw [hnil]; rfl
      omega
    have hwe : window.isEmpty = false := by
      cases hwin : window with
      | nil => exact absurd hwin hne
      | cons a l => rfl
    have hr0 : matching.length ≠ 0 := by omega
    simp only [hwe, Bool.false_eq_true, if_false]
    unfold calculateMetadata
    rw [if_neg (by exact_mod_cast hr0)]
    refine ⟨rfl, rfl, rfl, rfl, ?_, ?_⟩
    · have key := Int.ediv_add_emod ((matching.length : Int) + f.PageSize - 1) f.PageSize
      have h1 := Int.emod_nonneg ((matching.length : Int) + f.PageSize - 1)
        (by omega : f.PageSize ≠ 0)
      have h2 := Int.emod_lt_of_pos ((matching.length : Int) + f.PageSize - 1)
        (by omega : 0 < f.PageSize)
      nlinarith [key, h1, h2]
    · have key := Int.ediv_add_emod ((matching.length : Int) + f.PageSize - 1) f.PageSize
      have h1 := Int.emod_nonneg ((matching.length : Int) + f.PageSize - 1)
        (by omega : f.PageSize ≠ 0)
      have h2 := Int.emod_lt_of_pos ((matching.length : Int) + f.PageSize - 1)
        (by omega : 0 < f.PageSize)
      nlinarith [key, h1, h2]
  · intro hoff
    have hnil : window = [] := by
      rw [← List.length_eq_zero]
      omega
    have hwe : window.isEmpty = true := by rw [hnil]; rfl
    refine ⟨by simp [hnil], ?_⟩
    simp [hwe, calculateMetadata]

/-- Witness for the amended C3 theorem: page 1 of one matching row. -/
theorem getall_metadata_amended_witness :
    ∃ tasks md, TaskModel.GetAll 0 ⟨[rowA], 2, 2⟩ "" ⟨1, 20, "id", ["id"]⟩ = (1, .ok (tasks, md)) ∧
      (((0 : Int).toNat < ((⟨[rowA], 2, 2⟩ : TasksDB).rows.filter (taskMatches "")).length →
        md.TotalRecords = (((⟨[rowA], 2, 2⟩ : TasksDB).rows.filter (taskMatches "")).length : Int) ∧
        md.FirstPage = 1 ∧ md.CurrentPage = 1 ∧ md.PageSize = 20 ∧
        ((((⟨[rowA], 2, 2⟩ : TasksDB).rows.filter (taskMatches "")).length : Int))
          ≤ md.LastPage * 20 ∧
        md.LastPage * 20
          < ((((⟨[rowA], 2, 2⟩ : TasksDB).rows.filter (taskMatches "")).length : Int)) + 20) ∧
      (((⟨[rowA], 2, 2⟩ : TasksDB).rows.filter (taskMatches "")).length ≤ (0 : Int).toNat →
        tasks = [] ∧ md = ⟨0, 0, 0, 0, 0⟩)) := by
  have h := getall_metadata_amended 0 ⟨[rowA], 2, 2⟩ "" ⟨1, 20, "id", ["id"]⟩
    rfl rfl (by decide) (by decide)
  exact h

/-- C4: on both models a successful `getAll` returns exactly a window of
a sorted permutation of the rows matching the filter (the full-text match
for Task when the filter is non-empty, all rows when it is empty — and
Category has no filter at all, so always all rows), ordered by the
resolved sort column and direction with `id ASC` as tie-break; any two
returned rows are strictly ordered (the order relation holds and their
ids differ), so the order is fully deterministic even with duplicate
primary sort keys; and the concrete scenario — two tasks with due dates
2024-01-01 and 2024-01-02, empty filter, `sort = -due_date` — comes back
as `[B, A]` with `totalRecords = 2`. -/
theorem getall_filter_sort_window :
    (∀ (latency : Nat) (db : TasksDB) (title : String) (f : Filters) (c : String),
      f.sortColumn = some c → taskSortable c = true → latency ≤ 3 → db.wf →
      ∃ sortedRows : List TaskRow,
        sortedRows.Perm (db.rows.filter (taskMatches title)) ∧
        sortedRows.Pairwise (fun a b =>
          keyedRowLe (fun r => r.colVal c) (fun r => r.id) (f.sortDirection == "DESC") a b
            = true) ∧
        (∀ t ∈ (sortedRows.drop f.offset.toNat).take f.limit.toNat,
          t ∈ db.rows ∧ taskMatches title t = true) ∧
        ((sortedRows.drop f.offset.toNat).take f.limit.toNat).Pairwise (fun a b =>
          keyedRowLe (fun r => r.colVal c) (fun r => r.id) (f.sortDirection == "DESC") a b
            = true ∧ a.id ≠ b.id) ∧
        (TaskModel.GetAll latency db title f).2
          = .ok (((sortedRows.drop f.offset.toNat).take f.limit.toNat).map TaskRow.toTask,
              calculateMetadata
                (if ((sortedRows.drop f.offset.toNat).take f.limit.toNat).isEmpty then 0
                  else ((db.rows.filter (taskMatches title)).length : Int))
                f.Page f.PageSize)) ∧
    (∀ (latency : Nat) (db : CatsDB) (f : Filters) (c : String),
      f.sortColumn = some c → catSortable c = true → latency ≤ 3 → db.wf →
      ∃ sortedRows : List CatRow,
        sortedRows.Perm db.rows ∧
        sortedRows.Pairwise (fun a b =>
          keyedRowLe (fun r => r.colVal c) (fun r => r.id) (f.sortDirection == "DESC") a b
            = true) ∧
        ((sortedRows.drop f.offset.toNat).take f.limit.toNat).Pairwise (fun a b =>
          keyedRowLe (fun r => r.colVal c) (fun r => r.id) (f.sortDirection == "DESC") a b
            = true ∧ a.id ≠ b.id) ∧
        (CategoryModel.GetAll latency db f).2
          = .ok (((sortedRows.drop f.offset.toNat).take f.limit.toNat).map CatRow.toCategory,
              calculateMetadata
                (if ((sortedRows.drop f.offset.toNat).take f.limit.toNat).isEmpty then 0
                  else (db.rows.length : Int))
                f.Page f.PageSize)) ∧
    (TaskModel.GetAll 0 ⟨[rowA, rowB], 3, 3⟩ "" ⟨1, 20, "-due_date", ["id", "-due_date"]⟩).2
      = .ok ([rowB.toTask, rowA.toTask], ⟨1, 20, 1, 1, 2⟩) := by
  refine ⟨?_, ?_, ?_⟩
  · intro latency db title f c hc hs hl hwf
    have hpw1 : ((db.rows.filter (taskMatches title)).mergeSort
        (keyedRowLe (fun r => r.colVal c) (fun r => r.id)
          (f.sortDirection == "DESC"))).Pairwise (fun a b =>
        keyedRowLe (fun r => r.colVal c) (fun r => r.id) (f.sortDirection == "DESC") a b
          = true) :=
      @List.sorted_mergeSort TaskRow
        (keyedRowLe (fun r : TaskRow => r.colVal c) (fun r : TaskRow => r.id)
          (f.sortDirection == "DESC"))
        (fun a b c h1 h2 => keyedRowLe_trans _ _ _ h1 h2)
        (keyedRowLe_total _ _ _) _
    refine ⟨(db.rows.filter (taskMatches title)).mergeSort
      (keyedRowLe (fun r => r.colVal c) (fun r => r.id) (f.sortDirection == "DESC")),
      List.mergeSort_perm _ _, hpw1, ?_, ?_, ?_⟩
    · intro t ht
      have hmem : t ∈ (db.rows.filter (taskMatches title)).mergeSort
          (keyedRowLe (fun r => r.colVal c) (fun r => r.id) (f.sortDirection == "DESC")) :=
        ((List.take_sublist _ _).trans (List.drop_sublist _ _)).mem ht
      have hmem2 : t ∈ db.rows.filter (taskMatches title) :=
        ((List.mergeSort_perm _ _).mem_iff).mp hmem
      exact ⟨List.mem_of_mem_filter hmem2, List.of_mem_filter hmem2⟩
    · have hpwid0 : (db.rows.filter (taskMatches title)).Pairwise (fun a b => a.id ≠ b.id) :=
        List.Pairwise.sublist (List.filter_sublist _) hwf.1
      have hpwid : ((db.rows.filter (taskMatches title)).mergeSort
          (keyedRowLe (fun r => r.colVal c) (fun r => r.id)
            (f.sortDirection == "DESC"))).Pairwise (fun a b => a.id ≠ b.id) :=
        (List.Perm.pairwise_iff (fun h => h ∘ Eq.symm) (List.mergeSort_perm _ _)).mpr hpwid0
      have hsub : (((db.rows.filter (taskMatches title)).mergeSort
          (keyedRowLe (fun r => r.colVal c) (fun r => r.id)
            (f.sortDirection == "DESC"))).drop f.offset.toNat).take f.limit.toNat
          |>.Sublist ((db.rows.filter (taskMatches title)).mergeSort
          (keyedRowLe (fun r => r.colVal c) (fun r => r.id) (f.sortDirection == "DESC"))) :=
        (List.take_sublist _ _).trans (List.drop_sublist _ _)
      exact (List.Pairwise.sublist hsub hpw1).and (List.Pairwise.sublist hsub hpwid)
    · rw [taskGetAll_eq latency db title f hc hs hl]
  · intro latency db f c hc hs hl hwf
    have hpw1 : (db.rows.mergeSort
        (keyedRowLe (fun r => r.colVal c) (fun r => r.id)
          (f.sortDirection == "DESC"))).Pairwise (fun a b =>
        keyedRowLe (fun r => r.colVal c) (fun r => r.id) (f.sortDirection == "DESC") a b
          = true) :=
      @List.sorted_mergeSort CatRow
        (keyedRowLe (fun r : CatRow => r.colVal c) (fun r : CatRow => r.id)
          (f.sortDirection == "DESC"))
        (fun a b c h1 h2 => keyedRowLe_trans _ _ _ h1 h2)
        (keyedRowLe_total _ _ _) _
    refine ⟨db.rows.mergeSort
      (keyedRowLe (fun r => r.colVal c) (fun r => r.id) (f.sortDirection == "DESC")),
      List.mergeSort_perm _ _, hpw1, ?_, ?_⟩
    · have hpwid : (db.rows.mergeSort
          (keyedRowLe (fun r => r.colVal c) (fun r => r.id)
            (f.sortDirection == "DESC"))).Pairwise (fun a b => a.id ≠ b.id) :=
        (List.Perm.pairwise_iff (fun h => h ∘ Eq.symm) (List.mergeSort_perm _ _)).mpr hwf.1
      have hsub : ((db.rows.mergeSort
          (keyedRowLe (fun r => r.colVal c) (fun r => r.id)
            (f.sortDirection == "DESC"))).drop f.offset.toNat).take f.limit.toNat
          |>.Sublist (db.rows.mergeSort
          (keyedRowLe (fun r => r.colVal c) (fun r => r.id) (f.sortDirection == "DESC"))) :=
        (List.take_sublist _ _).trans (List.drop_sublist _ _)
      exact (List.Pairwise.sublist hsub hpw1).and (List.Pairwise.sublist hsub hpwid)
    · rw [catGetAll_eq latency db f hc hs hl]
  · rw [taskGetAll_eq 0 ⟨[rowA, rowB], 3, 3⟩ "" ⟨1, 20, "-due_date", ["id", "-due_date"]⟩
      (c := "due_date") rfl rfl (by decide)]
    norm_num +decide [List.mergeSort, Filters.offset, Filters.limit, Filters.sortDirection,
      hasDash, taskMatches, calculateMetadata, rowA, rowB, keyedRowLe, TaskRow.colVal,
      colValLt, dtLtB, List.merge]

/-- Witness for C4 at the scenario inputs. -/
theorem getall_filter_sort_window_witness :
    ∃ sortedRows : List TaskRow,
      sortedRows.Perm ((⟨[rowA, rowB], 3, 3⟩ : TasksDB).rows.filter (taskMatches "")) ∧
      sortedRows.Pairwise (fun a b =>
        keyedRowLe (fun r => r.colVal "due_date") (fun r => r.id)
          ((⟨1, 20, "-due_date", ["id", "-due_date"]⟩ : Filters).sortDirection == "DESC") a b
          = true) ∧
      (∀ t ∈ (sortedRows.drop
          (⟨1, 20, "-due_date", ["id", "-due_date"]⟩ : Filters).offset.toNat).take
          (⟨1, 20, "-due_date", ["id", "-due_date"]⟩ : Filters).limit.toNat,
        t ∈ (⟨[rowA, rowB], 3, 3⟩ : TasksDB).rows ∧ taskMatches "" t = true) ∧
      ((sortedRows.drop
          (⟨1, 20, "-due_date", ["id", "-due_date"]⟩ : Filters).offset.toNat).take
          (⟨1, 20, "-due_date", ["id", "-due_date"]⟩ : Filters).limit.toNat).Pairwise (fun a b =>
        keyedRowLe (fun r => r.colVal "due_date") (fun r => r.id)
          ((⟨1, 20, "-due_date", ["id", "-due_date"]⟩ : Filters).sortDirection == "DESC") a b
          = true ∧ a.id ≠ b.id) ∧
      (TaskModel.GetAll 0 ⟨[rowA, rowB], 3, 3⟩ ""
          ⟨1, 20, "-due_date", ["id", "-due_date"]⟩).2
        = .ok ((sortedRows.drop
            (⟨1, 20, "-due_date", ["id", "-due_date"]⟩ : Filters).offset.toNat).take
            (⟨1, 20, "-due_date", ["id", "-due_date"]⟩ : Filters).limit.toNat
            |>.map TaskRow.toTask,
          calculateMetadata
            (if ((sortedRows.drop
                (⟨1, 20, "-due_date", ["id", "-due_date"]⟩ : Filters).offset.toNat).take
                (⟨1, 20, "-due_date", ["id", "-due_date"]⟩ : Filters).limit.toNat).isEmpty
              then 0
              else (((⟨[rowA, rowB], 3, 3⟩ : TasksDB).rows.filter (taskMatches "")).length : Int))
            1 20) :=
  getall_filter_sort_window.1 0 ⟨[rowA, rowB], 3, 3⟩ ""
    ⟨1, 20, "-due_date", ["id", "-due_date"]⟩ "due_date" rfl rfl (by decide) (by decide)

end DoMake
